import Mathlib

/-!
# AgentMesh core: a shallow embedding and verification

This development embeds the core data model and operations of the AgentMesh
coordination fabric — the slime-mold topology graph (`internal/topology/graph.go`,
`pkg/types/types.go`), the bee consensus engine (`internal/consensus`), and the
knowledge aggregator (`cmd/knowledge-manager`) — and proves (or refutes)
the specified properties about them.

Modelling conventions:
* Go `string` identifiers are modelled as `List Char` (`Str`), so that the
  `"<source>-><target>"` edge-id derivation and its `strings.Split` inverse are
  modelled faithfully, including collisions for ids containing `"->"`.
* Go `float64` weights, rates and thresholds are modelled as `ℚ`; the
  operations used (`+`, `-`, `min`, `max`, comparisons, division) are exact.
* Go `map[K]V` is modelled as an association list with overwrite-on-insert
  (`mapInsert`) and first-match lookup (`mapLookup`); maps built by
  `mapInsert` have no duplicate keys, so the first match is the only match.
* Go `time.Time` values are modelled as an abstract `Nat` tick passed in
  explicitly (`now`); mutexes are dropped (operations are atomic steps).
* Go functions returning `error` are modelled with `Except String`.
-/

/-- Go `string`, modelled as a list of characters. -/
abbrev Str := List Char

/-- The two-character separator `"->"` used by `types.NewEdgeID`. -/
def sepChars : Str := ['-', '>']

/-- `types.NewEdgeID`: `EdgeID(string(sourceID) + "->" + string(targetID))`. -/
def NewEdgeID (sourceID targetID : Str) : Str :=
  sourceID ++ sepChars ++ targetID

/-- Whether the separator `"->"` occurs as a substring. Agent ids produced by
`types.NewAgentID` (UUIDs) never contain it, but the Go code accepts any id. -/
def hasSep : Str → Bool
  | [] => false
  | [_] => false
  | a :: b :: rest => (a = '-' && b = '>') || hasSep (b :: rest)

/-- Go `strings.Split(s, "->")`: splits around each leftmost non-overlapping
occurrence of the separator. -/
def splitOnSep : Str → List Str
  | [] => [[]]
  | '-' :: '>' :: rest => [] :: splitOnSep rest
  | a :: rest =>
    let r := splitOnSep rest
    (a :: r.headD []) :: r.tail

/-- First-match lookup in an association list (Go map read `m[k]`). -/
def mapLookup {α β : Type} [DecidableEq α] (k : α) : List (α × β) → Option β
  | [] => none
  | p :: rest => if p.1 = k then some p.2 else mapLookup k rest

/-- Overwrite-or-append insertion (Go map write `m[k] = v`). -/
def mapInsert {α β : Type} [DecidableEq α] (k : α) (v : β) :
    List (α × β) → List (α × β)
  | [] => [(k, v)]
  | p :: rest => if p.1 = k then (k, v) :: rest else p :: mapInsert k v rest

/-- The keys of an association list. -/
def mapKeys {α β : Type} (m : List (α × β)) : List α :=
  m.map Prod.fst

/-- `types.AgentStatus`. -/
inductive AgentStatus
  | active
  | idle
  | busy
  | offline
deriving DecidableEq, Repr

/-- `types.Agent` (the `Metadata` map and `Capabilities` list are carried but
never inspected by the verified operations). -/
structure Agent where
  ID : Str
  Name : Str
  Role : Str
  Status : AgentStatus
  Metadata : List (Str × Str)
  Capabilities : List Str
  CreatedAt : Nat
  LastSeenAt : Nat
deriving DecidableEq, Repr

/-- `types.Edge`. -/
structure Edge where
  ID : Str
  SourceID : Str
  TargetID : Str
  Weight : ℚ
  Usage : Int
  LastUsed : Nat
  CreatedAt : Nat
deriving DecidableEq, Repr

/-- `Edge.Reinforce`: `Weight = min(1.0, Weight+amount); Usage++; LastUsed = now`. -/
def Edge.Reinforce (e : Edge) (amount : ℚ) (now : Nat) : Edge :=
  { e with Weight := min 1 (e.Weight + amount), Usage := e.Usage + 1, LastUsed := now }

/-- `Edge.Decay`: `Weight = max(0.0, Weight-rate)`. -/
def Edge.Decay (e : Edge) (rate : ℚ) : Edge :=
  { e with Weight := max 0 (e.Weight - rate) }

/-- `Edge.GetWeight`. -/
def Edge.GetWeight (e : Edge) : ℚ :=
  e.Weight

/-- The topology/consensus part of `types.Config` (durations and
infrastructure settings are irrelevant to the verified operations). -/
structure Config where
  InitialEdgeWeight : ℚ
  ReinforcementAmount : ℚ
  DecayRate : ℚ
  PruneThreshold : ℚ
  QuorumThreshold : ℚ
deriving DecidableEq, Repr

/-- `types.GraphStats`. -/
structure GraphStats where
  TotalAgents : Nat
  TotalEdges : Nat
  ActiveEdges : Nat
  AverageWeight : ℚ
  MaxWeight : ℚ
  MinWeight : ℚ
  Density : ℚ
  ReductionPercent : ℚ
deriving DecidableEq, Repr

/-- `topology.Graph`: agents and edges keyed by their ids. -/
structure Graph where
  agents : List (Str × Agent)
  edges : List (Str × Edge)
  config : Config
deriving DecidableEq, Repr

/-- `topology.NewGraph`. -/
def NewGraph (config : Config) : Graph :=
  { agents := [], edges := [], config := config }

/-- The edge record built by `Graph.AddAgent` for a pair of endpoints
(`Weight` is `g.config.InitialEdgeWeight`, `Usage` is `0`). -/
def mkMeshEdge (sourceID targetID : Str) (w : ℚ) (now : Nat) : Edge :=
  { ID := NewEdgeID sourceID targetID, SourceID := sourceID, TargetID := targetID,
    Weight := w, Usage := 0, CreatedAt := now, LastUsed := now }

/-- `Graph.AddAgent`: rejects a duplicate id; otherwise inserts the agent,
creates the self-loop edge, then iterates over the agents map creating the
two directed edges to and from every other agent. -/
def Graph.AddAgent (g : Graph) (agent : Agent) (now : Nat) : Except String Graph :=
  if (mapLookup agent.ID g.agents).isSome then
    Except.error "agent already exists"
  else
    let agents1 := mapInsert agent.ID agent g.agents
    let selfEdge := mkMeshEdge agent.ID agent.ID g.config.InitialEdgeWeight now
    let edges1 := mapInsert selfEdge.ID selfEdge g.edges
    let edges2 := agents1.foldl
      (fun es p =>
        if p.2.ID = agent.ID then es
        else
          let edge1 := mkMeshEdge agent.ID p.2.ID g.config.InitialEdgeWeight now
          let edge2 := mkMeshEdge p.2.ID agent.ID g.config.InitialEdgeWeight now
          mapInsert edge2.ID edge2 (mapInsert edge1.ID edge1 es))
      edges1
    Except.ok { g with agents := agents1, edges := edges2 }

/-- `Graph.ReinforceEdge`: reinforce an existing edge, or parse the id as
`"source->target"`, check both endpoints, create the edge at weight `0.5` and
reinforce it; errors on a malformed id or an unknown endpoint. -/
def Graph.ReinforceEdge (g : Graph) (edgeID : Str) (now : Nat) : Except String Graph :=
  match mapLookup edgeID g.edges with
  | some edge =>
    Except.ok { g with
      edges := mapInsert edgeID (edge.Reinforce g.config.ReinforcementAmount now) g.edges }
  | none =>
    let parts := splitOnSep edgeID
    if parts.length ≠ 2 then
      Except.error "invalid edge ID format"
    else
      let sourceID := parts.headD []
      let targetID := (parts.drop 1).headD []
      if (mapLookup sourceID g.agents).isNone then
        Except.error "source agent not found"
      else if (mapLookup targetID g.agents).isNone then
        Except.error "target agent not found"
      else
        let edge : Edge :=
          { ID := edgeID, SourceID := sourceID, TargetID := targetID,
            Weight := 1/2, Usage := 0, LastUsed := now, CreatedAt := now }
        Except.ok { g with
          edges := mapInsert edgeID (edge.Reinforce g.config.ReinforcementAmount now) g.edges }

/-- `Graph.DecayAllEdges`: applies `Edge.Decay` to every edge. -/
def Graph.DecayAllEdges (g : Graph) : Graph :=
  { g with edges := g.edges.map (fun p => (p.1, p.2.Decay g.config.DecayRate)) }

/-- `Graph.PruneWeakEdges`: removes every edge with weight strictly below the
prune threshold and returns the removed ids. -/
def Graph.PruneWeakEdges (g : Graph) : List Str × Graph :=
  let pruned := (g.edges.filter (fun p => p.2.GetWeight < g.config.PruneThreshold)).map Prod.fst
  (pruned, { g with edges := g.edges.filter (fun p => ¬ p.2.GetWeight < g.config.PruneThreshold) })

/-- `Graph.calculateStats` (weight aggregates are folded over the edges map;
`Density` and `ReductionPercent` divide by `numAgents * (numAgents - 1)` and
are `0` when that product is not positive or when there are no edges). -/
def Graph.calculateStats (g : Graph) : GraphStats :=
  let numAgents := g.agents.length
  let numEdges := g.edges.length
  if numEdges = 0 then
    { TotalAgents := numAgents, TotalEdges := 0, ActiveEdges := 0,
      AverageWeight := 0, MaxWeight := 0, MinWeight := 0,
      Density := 0, ReductionPercent := 0 }
  else
    let totalWeight := g.edges.foldl (fun acc p => acc + p.2.GetWeight) 0
    let maxWeight := g.edges.foldl (fun acc p => if acc < p.2.GetWeight then p.2.GetWeight else acc) 0
    let minWeight := g.edges.foldl (fun acc p => if p.2.GetWeight < acc then p.2.GetWeight else acc) 1
    let activeEdges := (g.edges.filter (fun p => (1/10 : ℚ) < p.2.GetWeight)).length
    let avgWeight := totalWeight / (numEdges : ℚ)
    let possibleEdges := numAgents * (numAgents - 1)
    let density : ℚ := if 0 < possibleEdges then (numEdges : ℚ) / (possibleEdges : ℚ) else 0
    let reductionPercent : ℚ := if 0 < possibleEdges then (1 - density) * 100 else 0
    { TotalAgents := numAgents, TotalEdges := numEdges, ActiveEdges := activeEdges,
      AverageWeight := avgWeight, MaxWeight := maxWeight, MinWeight := minWeight,
      Density := density, ReductionPercent := reductionPercent }

section MapLemmas

variable {α β : Type} [DecidableEq α]

theorem mapLookup_eq_none {k : α} {m : List (α × β)} :
    mapLookup k m = none ↔ k ∉ mapKeys m := by
  induction m with
  | nil => simp [mapLookup, mapKeys]
  | cons p rest ih =>
    by_cases h : p.1 = k
    · simp [mapLookup, mapKeys, h]
    · simp [mapLookup, mapKeys, h, ih, Ne.symm h]

theorem mapLookup_isSome {k : α} {m : List (α × β)} :
    (mapLookup k m).isSome = true ↔ k ∈ mapKeys m := by
  rw [Option.isSome_iff_ne_none]
  constructor
  · intro h
    by_contra hk
    exact h (mapLookup_eq_none.mpr hk)
  · intro h hn
    exact (mapLookup_eq_none.mp hn) h

theorem mapLookup_insert_self {k : α} {v : β} {m : List (α × β)} :
    mapLookup k (mapInsert k v m) = some v := by
  induction m with
  | nil => simp [mapInsert, mapLookup]
  | cons p rest ih =>
    by_cases h : p.1 = k
    · simp [mapInsert, h, mapLookup]
    · simp [mapInsert, h, mapLookup, ih]

theorem mapLookup_insert_ne {k k' : α} {v : β} {m : List (α × β)} (h : k' ≠ k) :
    mapLookup k' (mapInsert k v m) = mapLookup k' m := by
  have h' : k ≠ k' := Ne.symm h
  induction m with
  | nil => simp [mapInsert, mapLookup, h']
  | cons p rest ih =>
    by_cases hp : p.1 = k
    · subst hp
      simp [mapInsert, mapLookup, h']
    · simp [mapInsert, hp, mapLookup, ih]

theorem mapInsert_length_of_not_mem {k : α} {v : β} {m : List (α × β)}
    (h : k ∉ mapKeys m) : (mapInsert k v m).length = m.length + 1 := by
  induction m with
  | nil => simp [mapInsert]
  | cons p rest ih =>
    simp only [mapKeys, List.map_cons, List.mem_cons] at h
    push_neg at h
    simp [mapInsert, Ne.symm h.1, ih h.2]

theorem mapInsert_cons_of_eq {k : α} {v : β} {p : α × β} {rest : List (α × β)}
    (h : p.1 = k) : mapInsert k v (p :: rest) = (k, v) :: rest := by
  simp [mapInsert, h]

theorem mapInsert_cons_of_ne {k : α} {v : β} {p : α × β} {rest : List (α × β)}
    (h : ¬ p.1 = k) : mapInsert k v (p :: rest) = p :: mapInsert k v rest := by
  simp [mapInsert, h]

theorem mapKeys_insert_mem {k k' : α} {v : β} {m : List (α × β)} :
    k' ∈ mapKeys (mapInsert k v m) ↔ k' = k ∨ k' ∈ mapKeys m := by
  induction m with
  | nil => simp [mapInsert, mapKeys]
  | cons p rest ih =>
    by_cases h : p.1 = k
    · rw [mapInsert_cons_of_eq h]
      subst h
      simp only [mapKeys, List.map_cons, List.mem_cons]
      tauto
    · rw [mapInsert_cons_of_ne h]
      simp only [mapKeys, List.map_cons, List.mem_cons] at ih ⊢
      tauto

theorem mapInsert_mem {k : α} {v : β} {m : List (α × β)} {q : α × β}
    (h : q ∈ mapInsert k v m) : q = (k, v) ∨ q ∈ m := by
  induction m with
  | nil => simpa [mapInsert] using h
  | cons p rest ih =>
    by_cases hp : p.1 = k
    · simp [mapInsert, hp] at h
      rcases h with h | h
      · left; simp [h]
      · right; simp [h]
    · simp [mapInsert, hp] at h
      rcases h with h | h
      · right; simp [h]
      · rcases ih h with h' | h'
        · left; exact h'
        · right; simp [h']

theorem mapInsert_of_not_mem {k : α} {v : β} {m : List (α × β)}
    (h : k ∉ mapKeys m) : mapInsert k v m = m ++ [(k, v)] := by
  induction m with
  | nil => simp [mapInsert]
  | cons p rest ih =>
    simp only [mapKeys, List.map_cons, List.mem_cons] at h
    push_neg at h
    simp [mapInsert, Ne.symm h.1, ih h.2]

theorem mapInsert_idem {k : α} {v : β} {m : List (α × β)} :
    mapInsert k v (mapInsert k v m) = mapInsert k v m := by
  induction m with
  | nil => simp [mapInsert]
  | cons p rest ih =>
    by_cases h : p.1 = k
    · simp [mapInsert, h]
    · simp [mapInsert, h, ih]

theorem mapLookup_mem {k : α} {v : β} {m : List (α × β)}
    (h : mapLookup k m = some v) : (k, v) ∈ m := by
  induction m with
  | nil => simp [mapLookup] at h
  | cons p rest ih =>
    by_cases hp : p.1 = k
    · simp [mapLookup, hp] at h
      have hp2 : p = (k, v) := by
        cases p
        simp_all
      rw [← hp2]
      exact List.mem_cons_self _ _
    · simp [mapLookup, hp] at h
      exact List.mem_cons_of_mem _ (ih h)

theorem mapKeys_of_lookup {k : α} {v : β} {m : List (α × β)}
    (h : mapLookup k m = some v) : k ∈ mapKeys m := by
  have := mapLookup_mem h
  exact List.mem_map_of_mem Prod.fst this

end MapLemmas

section SepLemmas

theorem hasSep_cons {a : Char} {l : Str} (h : hasSep (a :: l) = false) :
    hasSep l = false := by
  cases l with
  | nil => rfl
  | cons b rest =>
    simp only [hasSep, Bool.or_eq_false_iff] at h
    exact h.2

theorem hasSep_sep_front (l : Str) : hasSep ('-' :: '>' :: l) = true := by
  simp [hasSep]

/-- Concatenation around the `"->"` separator is injective on separator-free
prefixes: two equal edge ids built by `NewEdgeID` from separator-free source
ids have equal sources and equal targets. -/
theorem NewEdgeID_inj {a c b d : Str} (ha : hasSep a = false) (hc : hasSep c = false)
    (h : NewEdgeID a b = NewEdgeID c d) : a = c ∧ b = d := by
  unfold NewEdgeID sepChars at h
  induction a generalizing c with
  | nil =>
    cases c with
    | nil =>
      refine ⟨rfl, ?_⟩
      simpa using h
    | cons x c' =>
      exfalso
      simp only [List.nil_append, List.cons_append, List.append_assoc,
        List.cons.injEq] at h
      obtain ⟨hx, h2⟩ := h
      cases c' with
      | nil =>
        simp at h2
      | cons y c'' =>
        simp only [List.cons_append, List.cons.injEq] at h2
        obtain ⟨hy, _⟩ := h2
        subst hx hy
        rw [hasSep_sep_front] at hc
        exact Bool.true_eq_false.mp hc
  | cons x a' ih =>
    cases c with
    | nil =>
      exfalso
      simp only [List.nil_append, List.cons_append, List.append_assoc,
        List.cons.injEq] at h
      obtain ⟨hx, h2⟩ := h
      cases a' with
      | nil =>
        simp at h2
      | cons y a'' =>
        simp only [List.cons_append, List.cons.injEq] at h2
        obtain ⟨hy, _⟩ := h2
        subst hx hy
        rw [hasSep_sep_front] at ha
        exact Bool.true_eq_false.mp ha
    | cons y c' =>
      simp only [List.cons_append, List.cons.injEq] at h
      obtain ⟨hxy, h2⟩ := h
      have := ih (hasSep_cons ha) (hasSep_cons hc) (by simpa using h2)
      exact ⟨by rw [hxy, this.1], this.2⟩

end SepLemmas

theorem NewEdgeID_ne_of_left {a c b d : Str} (ha : hasSep a = false)
    (hc : hasSep c = false) (h : a ≠ c) : NewEdgeID a b ≠ NewEdgeID c d :=
  fun he => h (NewEdgeID_inj ha hc he).1

theorem NewEdgeID_ne_of_right {a c b d : Str} (ha : hasSep a = false)
    (hc : hasSep c = false) (h : b ≠ d) : NewEdgeID a b ≠ NewEdgeID c d :=
  fun he => h (NewEdgeID_inj ha hc he).2

/-- The edge-creation loop body of `Graph.AddAgent`, abstracted over the new
agent's id `c`, the initial weight `w` and the clock. -/
def addMeshStep (c : Str) (w : ℚ) (now : Nat)
    (es : List (Str × Edge)) (p : Str × Agent) : List (Str × Edge) :=
  if p.2.ID = c then es
  else
    let edge1 := mkMeshEdge c p.2.ID w now
    let edge2 := mkMeshEdge p.2.ID c w now
    mapInsert edge2.ID edge2 (mapInsert edge1.ID edge1 es)

/-- Behaviour of the `Graph.AddAgent` edge-creation loop over a list of
pre-existing agents, all with separator-free ids distinct from the new id `c`:
it adds the `2·|L|` mesh edges at weight `w`, leaves every other key
untouched, and adds nothing else. -/
theorem addMeshStep_foldl_spec (c : Str) (w : ℚ) (now : Nat) (hc : hasSep c = false) :
    ∀ (L : List (Str × Agent)) (es : List (Str × Edge)),
    (∀ p ∈ L, p.2.ID = p.1) →
    (∀ p ∈ L, hasSep p.1 = false) →
    (∀ p ∈ L, p.1 ≠ c) →
    (mapKeys L).Nodup →
    (∀ p ∈ L, NewEdgeID c p.1 ∉ mapKeys es ∧ NewEdgeID p.1 c ∉ mapKeys es) →
    (L.foldl (addMeshStep c w now) es).length = es.length + 2 * L.length ∧
    (∀ k, (∀ p ∈ L, k ≠ NewEdgeID c p.1 ∧ k ≠ NewEdgeID p.1 c) →
      mapLookup k (L.foldl (addMeshStep c w now) es) = mapLookup k es) ∧
    (∀ p ∈ L,
      mapLookup (NewEdgeID c p.1) (L.foldl (addMeshStep c w now) es) =
        some (mkMeshEdge c p.1 w now) ∧
      mapLookup (NewEdgeID p.1 c) (L.foldl (addMeshStep c w now) es) =
        some (mkMeshEdge p.1 c w now)) ∧
    (∀ q ∈ L.foldl (addMeshStep c w now) es, q ∈ es ∨ ∃ p ∈ L,
      q = (NewEdgeID c p.1, mkMeshEdge c p.1 w now) ∨
      q = (NewEdgeID p.1 c, mkMeshEdge p.1 c w now)) := by
  intro L
  induction L with
  | nil =>
    intro es _ _ _ _ _
    refine ⟨?_, fun k _ => rfl, fun p hp => absurd hp (List.not_mem_nil p),
      fun q hq => Or.inl hq⟩
    simp only [List.foldl_nil, List.length_nil, Nat.mul_zero, Nat.add_zero]
  | cons p L' ih =>
    intro es hid hsep hne hnd hfresh
    have hpid : p.2.ID = p.1 := hid p (by simp)
    have hpsep : hasSep p.1 = false := hsep p (by simp)
    have hpne : p.1 ≠ c := hne p (by simp)
    have hnd2 : (p.1 :: mapKeys L').Nodup := hnd
    have hpnotin : p.1 ∉ mapKeys L' := (List.nodup_cons.mp hnd2).1
    have hnd' : (mapKeys L').Nodup := (List.nodup_cons.mp hnd2).2
    have hk12 : NewEdgeID c p.1 ≠ NewEdgeID p.1 c :=
      NewEdgeID_ne_of_left hc hpsep (Ne.symm hpne)
    have hfp := hfresh p (by simp)
    have hstep : (p :: L').foldl (addMeshStep c w now) es =
        L'.foldl (addMeshStep c w now)
          (mapInsert (NewEdgeID p.1 c) (mkMeshEdge p.1 c w now)
            (mapInsert (NewEdgeID c p.1) (mkMeshEdge c p.1 w now) es)) := by
      simp only [List.foldl_cons]
      congr 1
      rw [addMeshStep, if_neg (by rw [hpid]; exact hpne), hpid]
      rfl
    set es2 := mapInsert (NewEdgeID p.1 c) (mkMeshEdge p.1 c w now)
      (mapInsert (NewEdgeID c p.1) (mkMeshEdge c p.1 w now) es) with hes2
    have hkeys2 : ∀ x, x ∈ mapKeys es2 ↔
        x = NewEdgeID p.1 c ∨ x = NewEdgeID c p.1 ∨ x ∈ mapKeys es := by
      intro x
      rw [hes2, mapKeys_insert_mem, mapKeys_insert_mem]
    have hfresh' : ∀ q ∈ L', NewEdgeID c q.1 ∉ mapKeys es2 ∧
        NewEdgeID q.1 c ∉ mapKeys es2 := by
      intro q hq
      have hqsep : hasSep q.1 = false := hsep q (by simp [hq])
      have hqne : q.1 ≠ c := hne q (by simp [hq])
      have hqp : q.1 ≠ p.1 := fun hqp =>
        hpnotin (hqp ▸ List.mem_map_of_mem Prod.fst hq)
      have hfq := hfresh q (by simp [hq])
      constructor
      · rw [hkeys2]
        push_neg
        exact ⟨NewEdgeID_ne_of_left hc hpsep (Ne.symm hpne),
          NewEdgeID_ne_of_right hc hc hqp, hfq.1⟩
      · rw [hkeys2]
        push_neg
        exact ⟨NewEdgeID_ne_of_left hqsep hpsep hqp,
          NewEdgeID_ne_of_left hqsep hc hqne, hfq.2⟩
    have hlen2 : es2.length = es.length + 2 := by
      rw [hes2, mapInsert_length_of_not_mem, mapInsert_length_of_not_mem hfp.1]
      rw [mapKeys_insert_mem]
      push_neg
      exact ⟨Ne.symm hk12, hfp.2⟩
    obtain ⟨ihlen, ihpres, ihvals, ihmem⟩ :=
      ih es2 (fun q hq => hid q (by simp [hq])) (fun q hq => hsep q (by simp [hq]))
        (fun q hq => hne q (by simp [hq])) hnd' hfresh'
    refine ⟨?_, ?_, ?_, ?_⟩
    · rw [hstep, ihlen, hlen2]
      simp only [List.length_cons]
      ring
    · intro k hk
      have hkp := hk p (by simp)
      rw [hstep, ihpres k (fun q hq => hk q (by simp [hq])), hes2,
        mapLookup_insert_ne hkp.2, mapLookup_insert_ne hkp.1]
    · intro q hq
      rcases List.mem_cons.mp hq with hq | hq
      · subst hq
        constructor
        · have : mapLookup (NewEdgeID c q.1)
              (L'.foldl (addMeshStep c w now) es2) = mapLookup (NewEdgeID c q.1) es2 := by
            apply ihpres
            intro r hr
            have hrsep : hasSep r.1 = false := hsep r (by simp [hr])
            have hrne : r.1 ≠ c := hne r (by simp [hr])
            have hrq : r.1 ≠ q.1 := fun hrq =>
              hpnotin (hrq ▸ List.mem_map_of_mem Prod.fst hr)
            exact ⟨NewEdgeID_ne_of_right hc hc (Ne.symm hrq),
              NewEdgeID_ne_of_left hc hrsep (Ne.symm hrne)⟩
          rw [hstep, this, hes2, mapLookup_insert_ne hk12, mapLookup_insert_self]
        · have : mapLookup (NewEdgeID q.1 c)
              (L'.foldl (addMeshStep c w now) es2) = mapLookup (NewEdgeID q.1 c) es2 := by
            apply ihpres
            intro r hr
            have hrsep : hasSep r.1 = false := hsep r (by simp [hr])
            have hrq : r.1 ≠ q.1 := fun hrq =>
              hpnotin (hrq ▸ List.mem_map_of_mem Prod.fst hr)
            exact ⟨NewEdgeID_ne_of_left hpsep hc hpne,
              NewEdgeID_ne_of_left hpsep hrsep (Ne.symm hrq)⟩
          rw [hstep, this, hes2, mapLookup_insert_self]
      · have := ihvals q hq
        rw [hstep]
        exact this
    · intro q hq
      rw [hstep] at hq
      rcases ihmem q hq with hq2 | ⟨r, hr, hq2⟩
      · rw [hes2] at hq2
        rcases mapInsert_mem hq2 with hq3 | hq3
        · exact Or.inr ⟨p, by simp, Or.inr hq3⟩
        · rcases mapInsert_mem hq3 with hq4 | hq4
          · exact Or.inr ⟨p, by simp, Or.inl hq4⟩
          · exact Or.inl hq4
      · exact Or.inr ⟨r, by simp [hr], hq2⟩

/-- Well-formedness of a `Graph`, maintained by every reachable state: agent
keys are distinct, every agent is stored under its own id, and every edge is
stored under the id derived from its endpoints, both of which are agents. -/
def Graph.WF (g : Graph) : Prop :=
  (mapKeys g.agents).Nodup ∧
  (∀ p ∈ g.agents, p.2.ID = p.1) ∧
  (∀ q ∈ g.edges, q.1 = NewEdgeID q.2.SourceID q.2.TargetID ∧
    q.2.SourceID ∈ mapKeys g.agents ∧ q.2.TargetID ∈ mapKeys g.agents)

/-- All agent ids of the graph are free of the `"->"` separator (true of the
UUID ids produced by `types.NewAgentID`). -/
def Graph.SepFreeIds (g : Graph) : Prop :=
  ∀ p ∈ g.agents, hasSep p.1 = false

theorem AddAgent_eq_of_not_mem (g : Graph) (agent : Agent) (now : Nat)
    (h : agent.ID ∉ mapKeys g.agents) :
    g.AddAgent agent now = Except.ok { g with
      agents := mapInsert agent.ID agent g.agents,
      edges := (mapInsert agent.ID agent g.agents).foldl
        (addMeshStep agent.ID g.config.InitialEdgeWeight now)
        (mapInsert (NewEdgeID agent.ID agent.ID)
          (mkMeshEdge agent.ID agent.ID g.config.InitialEdgeWeight now) g.edges) } := by
  have hnone : mapLookup agent.ID g.agents = none := mapLookup_eq_none.mpr h
  unfold Graph.AddAgent
  rw [hnone]
  rfl

theorem AddAgent_eq_of_mem (g : Graph) (agent : Agent) (now : Nat)
    (h : agent.ID ∈ mapKeys g.agents) :
    g.AddAgent agent now = Except.error "agent already exists" := by
  unfold Graph.AddAgent
  rw [if_pos (mapLookup_isSome.mpr h)]

/-- Full specification of a successful `Graph.AddAgent` on a well-formed graph
whose ids (including the new one) are separator-free: the agent is appended,
exactly `2·n + 1` fresh edges are created, all at the configured initial
weight, no pre-existing edge is touched, and well-formedness is preserved. -/
theorem AddAgent_spec (g : Graph) (agent : Agent) (now : Nat)
    (hwf : g.WF) (hsf : g.SepFreeIds) (hid : hasSep agent.ID = false)
    (hfresh : agent.ID ∉ mapKeys g.agents) :
    ∃ g', g.AddAgent agent now = Except.ok g' ∧
      g'.agents = g.agents ++ [(agent.ID, agent)] ∧
      g'.config = g.config ∧
      g'.edges.length = g.edges.length + (2 * g.agents.length + 1) ∧
      (∀ k ∈ mapKeys g.edges, mapLookup k g'.edges = mapLookup k g.edges) ∧
      mapLookup (NewEdgeID agent.ID agent.ID) g'.edges =
        some (mkMeshEdge agent.ID agent.ID g.config.InitialEdgeWeight now) ∧
      (∀ p ∈ g.agents,
        mapLookup (NewEdgeID agent.ID p.1) g'.edges =
          some (mkMeshEdge agent.ID p.1 g.config.InitialEdgeWeight now) ∧
        mapLookup (NewEdgeID p.1 agent.ID) g'.edges =
          some (mkMeshEdge p.1 agent.ID g.config.InitialEdgeWeight now)) ∧
      (∀ q ∈ g'.edges, q ∈ g.edges ∨
        q = (NewEdgeID agent.ID agent.ID,
          mkMeshEdge agent.ID agent.ID g.config.InitialEdgeWeight now) ∨
        ∃ p ∈ g.agents,
          q = (NewEdgeID agent.ID p.1, mkMeshEdge agent.ID p.1 g.config.InitialEdgeWeight now) ∨
          q = (NewEdgeID p.1 agent.ID, mkMeshEdge p.1 agent.ID g.config.InitialEdgeWeight now)) ∧
      g'.WF ∧ g'.SepFreeIds := by
  obtain ⟨hnd, hids, hedges⟩ := hwf
  have hsep_of_mem : ∀ x ∈ mapKeys g.agents, hasSep x = false := by
    intro x hx
    obtain ⟨p, hp, rfl⟩ := List.mem_map.mp hx
    exact hsf p hp
  have hne : ∀ p ∈ g.agents, p.1 ≠ agent.ID := by
    intro p hp h
    exact hfresh (h ▸ List.mem_map_of_mem Prod.fst hp)
  set c := agent.ID with hcdef
  set w := g.config.InitialEdgeWeight with hwdef
  set selfKey := NewEdgeID c c with hselfdef
  set selfEdge := mkMeshEdge c c w now with hselfedef
  -- the self-loop key is fresh in the old edge map
  have hselffresh : selfKey ∉ mapKeys g.edges := by
    intro hmem
    obtain ⟨q, hq, hqk⟩ := List.mem_map.mp hmem
    obtain ⟨hqid, hqs, _⟩ := hedges q hq
    have h2 : NewEdgeID c c = NewEdgeID q.2.SourceID q.2.TargetID := hqk.symm.trans hqid
    have := NewEdgeID_inj hid (hsep_of_mem _ hqs) h2
    exact hfresh (this.1 ▸ hqs)
  set edges1 := mapInsert selfKey selfEdge g.edges with hedges1
  have hkeys1 : ∀ x, x ∈ mapKeys edges1 ↔ x = selfKey ∨ x ∈ mapKeys g.edges := by
    intro x
    rw [hedges1, mapKeys_insert_mem]
  -- freshness of all mesh keys in edges1
  have hmeshfresh : ∀ p ∈ g.agents,
      NewEdgeID c p.1 ∉ mapKeys edges1 ∧ NewEdgeID p.1 c ∉ mapKeys edges1 := by
    intro p hp
    have hpsep := hsf p hp
    have hpne := hne p hp
    constructor
    · rw [hkeys1]
      push_neg
      constructor
      · exact NewEdgeID_ne_of_right hid hid hpne
      · intro hmem
        obtain ⟨q, hq, hqk⟩ := List.mem_map.mp hmem
        obtain ⟨hqid, hqs, _⟩ := hedges q hq
        have h2 : NewEdgeID c p.1 = NewEdgeID q.2.SourceID q.2.TargetID :=
          hqk.symm.trans hqid
        have := NewEdgeID_inj hid (hsep_of_mem _ hqs) h2
        exact hfresh (this.1 ▸ hqs)
    · rw [hkeys1]
      push_neg
      constructor
      · exact NewEdgeID_ne_of_left hpsep hid hpne
      · intro hmem
        obtain ⟨q, hq, hqk⟩ := List.mem_map.mp hmem
        obtain ⟨hqid, hqs, hqt⟩ := hedges q hq
        have h2 : NewEdgeID p.1 c = NewEdgeID q.2.SourceID q.2.TargetID :=
          hqk.symm.trans hqid
        have := NewEdgeID_inj hpsep (hsep_of_mem _ hqs) h2
        exact hfresh (this.2 ▸ hqt)
  obtain ⟨hlen, hpres, hvals, hmem⟩ :=
    addMeshStep_foldl_spec c w now hid g.agents edges1 hids hsf hne hnd hmeshfresh
  have hfold : (mapInsert c agent g.agents).foldl (addMeshStep c w now) edges1 =
      g.agents.foldl (addMeshStep c w now) edges1 := by
    rw [mapInsert_of_not_mem hfresh, List.foldl_append]
    simp only [List.foldl_cons, List.foldl_nil]
    rw [addMeshStep, if_pos rfl]
  refine ⟨_, AddAgent_eq_of_not_mem g agent now hfresh, ?_, rfl, ?_, ?_, ?_, ?_, ?_, ?_, ?_⟩
  · exact mapInsert_of_not_mem hfresh
  · show ((mapInsert c agent g.agents).foldl (addMeshStep c w now) edges1).length = _
    rw [hfold, hlen, hedges1, mapInsert_length_of_not_mem hselffresh]
    ring
  · intro k hk
    obtain ⟨q, hq, hqk⟩ := List.mem_map.mp hk
    obtain ⟨hqid, hqs, hqt⟩ := hedges q hq
    have hkid : k = NewEdgeID q.2.SourceID q.2.TargetID := hqk.symm.trans hqid
    show mapLookup k ((mapInsert c agent g.agents).foldl (addMeshStep c w now) edges1) = _
    rw [hfold, hpres]
    · rw [hedges1]
      apply mapLookup_insert_ne
      rw [hkid]
      exact NewEdgeID_ne_of_left (hsep_of_mem _ hqs) hid
        (fun h => hfresh (h ▸ hqs))
    · intro p hp
      rw [hkid]
      refine ⟨?_, ?_⟩
      · exact NewEdgeID_ne_of_left (hsep_of_mem _ hqs) hid (fun h => hfresh (h ▸ hqs))
      · exact NewEdgeID_ne_of_right (hsep_of_mem _ hqs) (hsf p hp)
          (fun h => hfresh (h ▸ hqt))
  · show mapLookup selfKey ((mapInsert c agent g.agents).foldl (addMeshStep c w now) edges1) = _
    rw [hfold, hpres]
    · rw [hedges1, mapLookup_insert_self]
    · intro p hp
      refine ⟨?_, ?_⟩
      · exact NewEdgeID_ne_of_right hid hid (fun h => hne p hp h.symm)
      · exact NewEdgeID_ne_of_left hid (hsf p hp) (fun h => hne p hp h.symm)
  · intro p hp
    have := hvals p hp
    constructor
    · show mapLookup (NewEdgeID c p.1)
        ((mapInsert c agent g.agents).foldl (addMeshStep c w now) edges1) = _
      rw [hfold]
      exact this.1
    · show mapLookup (NewEdgeID p.1 c)
        ((mapInsert c agent g.agents).foldl (addMeshStep c w now) edges1) = _
      rw [hfold]
      exact this.2
  · intro q hq
    rw [show (Graph.mk (mapInsert c agent g.agents)
        ((mapInsert c agent g.agents).foldl (addMeshStep c w now) edges1) g.config).edges =
        (mapInsert c agent g.agents).foldl (addMeshStep c w now) edges1 from rfl, hfold] at hq
    rcases hmem q hq with hq2 | ⟨p, hp, hq2⟩
    · rw [hedges1] at hq2
      rcases mapInsert_mem hq2 with hq3 | hq3
      · exact Or.inr (Or.inl hq3)
      · exact Or.inl hq3
    · exact Or.inr (Or.inr ⟨p, hp, hq2⟩)
  · -- well-formedness of the new graph
    refine ⟨?_, ?_, ?_⟩
    · show (mapKeys (mapInsert c agent g.agents)).Nodup
      rw [mapInsert_of_not_mem hfresh]
      have : mapKeys (g.agents ++ [(c, agent)]) = mapKeys g.agents ++ [c] := by
        simp [mapKeys]
      rw [this]
      refine List.Nodup.append hnd (List.nodup_singleton c) ?_
      intro x hx hxmem
      rw [List.mem_singleton] at hxmem
      exact hfresh (hxmem ▸ hx)
    · intro p hp
      rw [show (Graph.mk (mapInsert c agent g.agents)
          ((mapInsert c agent g.agents).foldl (addMeshStep c w now) edges1) g.config).agents =
          mapInsert c agent g.agents from rfl, mapInsert_of_not_mem hfresh] at hp
      rcases List.mem_append.mp hp with hp | hp
      · exact hids p hp
      · simp at hp
        rw [hp]
    · intro q hq
      have hmemc : ∀ x, x ∈ mapKeys (mapInsert c agent g.agents) ↔
          x = c ∨ x ∈ mapKeys g.agents := fun x => mapKeys_insert_mem
      rw [show (Graph.mk (mapInsert c agent g.agents)
          ((mapInsert c agent g.agents).foldl (addMeshStep c w now) edges1) g.config).edges =
          (mapInsert c agent g.agents).foldl (addMeshStep c w now) edges1 from rfl,
        hfold] at hq
      rcases hmem q hq with hq2 | ⟨p, hp, hq2⟩
      · rw [hedges1] at hq2
        rcases mapInsert_mem hq2 with hq3 | hq3
        · rw [hq3]
          refine ⟨rfl, ?_, ?_⟩
          · rw [hmemc]; exact Or.inl rfl
          · rw [hmemc]; exact Or.inl rfl
        · obtain ⟨hqid, hqs, hqt⟩ := hedges q hq3
          exact ⟨hqid, (hmemc _).mpr (Or.inr hqs), (hmemc _).mpr (Or.inr hqt)⟩
      · have hpk : p.1 ∈ mapKeys g.agents := List.mem_map_of_mem Prod.fst hp
        rcases hq2 with hq2 | hq2 <;> rw [hq2]
        · exact ⟨rfl, (hmemc _).mpr (Or.inl rfl), (hmemc _).mpr (Or.inr hpk)⟩
        · exact ⟨rfl, (hmemc _).mpr (Or.inr hpk), (hmemc _).mpr (Or.inl rfl)⟩
  · intro p hp
    rw [show (Graph.mk (mapInsert c agent g.agents)
        ((mapInsert c agent g.agents).foldl (addMeshStep c w now) edges1) g.config).agents =
        mapInsert c agent g.agents from rfl, mapInsert_of_not_mem hfresh] at hp
    rcases List.mem_append.mp hp with hp | hp
    · exact hsf p hp
    · simp at hp
      rw [hp]
      exact hid

/-- The default configuration from `internal/config` (`INITIAL_EDGE_WEIGHT=0.5`,
`REINFORCEMENT_AMOUNT=0.1`, `DECAY_RATE=0.05`, `PRUNE_THRESHOLD=0.1`,
`QUORUM_THRESHOLD=0.6`). -/
def defaultConfig : Config :=
  { InitialEdgeWeight := 1/2, ReinforcementAmount := 1/10, DecayRate := 1/20,
    PruneThreshold := 1/10, QuorumThreshold := 3/5 }

/-- A concrete agent record with the given id. -/
def mkAgent (id : Str) : Agent :=
  { ID := id, Name := id, Role := ['t'], Status := AgentStatus.active,
    Metadata := [], Capabilities := [], CreatedAt := 0, LastSeenAt := 0 }

/-- The graph obtained from the empty graph by adding the single agent `"p"`. -/
def gP : Graph :=
  match (NewGraph defaultConfig).AddAgent (mkAgent ['p']) 0 with
  | Except.ok g => g
  | Except.error _ => NewGraph defaultConfig

/-- **C1** — counterexample to the claim as stated. Agent ids are arbitrary
strings and edge ids are built by string concatenation around `"->"`, so ids
containing the separator collide: adding agent `"p->p"` to the graph holding
the single agent `"p"` succeeds but creates only 2 new edge entries (the two
directed mesh edges `"p->p" → "p"` and `"p" → "p->p"` share the edge id
`"p->p->p"`), not the claimed `2·n + 1 = 3`. -/
theorem C1_counterexample :
    mapLookup (mkAgent ['p', '-', '>', 'p']).ID gP.agents = none ∧
    gP.agents.length = 1 ∧ gP.edges.length = 1 ∧
    (gP.AddAgent (mkAgent ['p', '-', '>', 'p']) 1).toOption.map
      (fun g' => g'.edges.length) = some 3 ∧
    3 ≠ gP.edges.length + (2 * gP.agents.length + 1) := by
  refine ⟨by decide, by decide, by decide, by decide, by decide⟩

/-- **C1** (amended: restricted to separator-free agent ids, which excludes the
colliding ids of the counterexample). On a well-formed graph holding `n`
agents, adding a fresh agent succeeds, appends the agent, creates exactly
`2·n + 1` new edges — the self-loop plus one edge in each direction for every
pre-existing agent, each at the configured initial weight — and leaves every
pre-existing edge and agent unchanged; a duplicate id yields an error. -/
theorem C1_addAgent_full_mesh (g : Graph) (agent : Agent) (now : Nat)
    (hwf : g.WF) (hsf : g.SepFreeIds) (hsep : hasSep agent.ID = false) :
    (agent.ID ∉ mapKeys g.agents →
      ∃ g', g.AddAgent agent now = Except.ok g' ∧
        g'.agents = g.agents ++ [(agent.ID, agent)] ∧
        g'.edges.length = g.edges.length + (2 * g.agents.length + 1) ∧
        (∀ k ∈ mapKeys g.edges, mapLookup k g'.edges = mapLookup k g.edges) ∧
        mapLookup (NewEdgeID agent.ID agent.ID) g'.edges =
          some (mkMeshEdge agent.ID agent.ID g.config.InitialEdgeWeight now) ∧
        (∀ p ∈ g.agents,
          mapLookup (NewEdgeID agent.ID p.1) g'.edges =
            some (mkMeshEdge agent.ID p.1 g.config.InitialEdgeWeight now) ∧
          mapLookup (NewEdgeID p.1 agent.ID) g'.edges =
            some (mkMeshEdge p.1 agent.ID g.config.InitialEdgeWeight now))) ∧
    (agent.ID ∈ mapKeys g.agents →
      g.AddAgent agent now = Except.error "agent already exists") := by
  constructor
  · intro hfresh
    obtain ⟨g', hok, hagents, _, hlen, hpres, hself, hvals, _, _, _⟩ :=
      AddAgent_spec g agent now hwf hsf hsep hfresh
    exact ⟨g', hok, hagents, hlen, hpres, hself, hvals⟩
  · intro hdup
    exact AddAgent_eq_of_mem g agent now hdup

/-- Witness for **C1**: adding the fresh agent `"q"` to the concrete
one-agent graph `gP` creates exactly `2·1 + 1 = 3` new edges. -/
theorem C1_witness :
    ∃ g', gP.AddAgent (mkAgent ['q']) 1 = Except.ok g' ∧
      g'.edges.length = gP.edges.length + (2 * gP.agents.length + 1) := by
  have h := (C1_addAgent_full_mesh gP (mkAgent ['q']) 1
    (by unfold Graph.WF; decide) (by unfold Graph.SepFreeIds; decide)
    (by decide)).1 (by decide)
  obtain ⟨g', hok, _, hlen, _⟩ := h
  exact ⟨g', hok, hlen⟩

/-- `types.GraphSnapshot` (the deep copy of agents and edges is the identity
in the pure model). -/
structure GraphSnapshot where
  Agents : List (Str × Agent)
  Edges : List (Str × Edge)
  Timestamp : Nat
  Stats : GraphStats
deriving DecidableEq, Repr

/-- `Graph.GetSnapshot`. -/
def Graph.GetSnapshot (g : Graph) (now : Nat) : GraphSnapshot :=
  { Agents := g.agents, Edges := g.edges, Timestamp := now,
    Stats := g.calculateStats }

theorem calculateStats_of_no_edges (g : Graph) (h : g.edges.length = 0) :
    g.calculateStats =
      { TotalAgents := g.agents.length, TotalEdges := 0, ActiveEdges := 0,
        AverageWeight := 0, MaxWeight := 0, MinWeight := 0,
        Density := 0, ReductionPercent := 0 } := by
  unfold Graph.calculateStats
  rw [if_pos h]

theorem calculateStats_density_of_edges (g : Graph) (h : g.edges.length ≠ 0) :
    g.calculateStats.TotalAgents = g.agents.length ∧
    g.calculateStats.TotalEdges = g.edges.length ∧
    g.calculateStats.Density =
      (if 0 < g.agents.length * (g.agents.length - 1) then
        (g.edges.length : ℚ) / ((g.agents.length * (g.agents.length - 1) : Nat) : ℚ)
      else 0) ∧
    g.calculateStats.ReductionPercent =
      (if 0 < g.agents.length * (g.agents.length - 1) then
        (1 - g.calculateStats.Density) * 100
      else 0) := by
  have hdensity : g.calculateStats.Density =
      (if 0 < g.agents.length * (g.agents.length - 1) then
        (g.edges.length : ℚ) / ((g.agents.length * (g.agents.length - 1) : Nat) : ℚ)
      else 0) := by
    unfold Graph.calculateStats
    rw [if_neg h]
  refine ⟨?_, ?_, hdensity, ?_⟩
  · unfold Graph.calculateStats
    rw [if_neg h]
  · unfold Graph.calculateStats
    rw [if_neg h]
  · rw [hdensity]
    unfold Graph.calculateStats
    rw [if_neg h]

/-- The topology service's join handler: `Graph.AddAgent` driven by an
`agent_joined` event; a failed add leaves the graph unchanged. -/
def joinStep (g : Graph) (a : Agent) : Graph :=
  match g.AddAgent a 0 with
  | Except.ok g' => g'
  | Except.error _ => g

/-- A graph built from the empty graph by a sequence of joins. -/
def joinAll (cfg : Config) (L : List Agent) : Graph :=
  L.foldl joinStep (NewGraph cfg)

/-- Folding joins of fresh separator-free agents over a well-formed full-mesh
graph keeps it a well-formed full mesh: `n` agents, `n²` edges. -/
theorem joinFold_spec (L : List Agent) :
    ∀ (g : Graph), g.WF → g.SepFreeIds →
    (∀ a ∈ L, hasSep a.ID = false) →
    (L.map Agent.ID).Nodup →
    (∀ a ∈ L, a.ID ∉ mapKeys g.agents) →
    g.edges.length = g.agents.length * g.agents.length →
    (L.foldl joinStep g).WF ∧ (L.foldl joinStep g).SepFreeIds ∧
    (L.foldl joinStep g).agents.length = g.agents.length + L.length ∧
    (L.foldl joinStep g).edges.length =
      (g.agents.length + L.length) * (g.agents.length + L.length) ∧
    (L.foldl joinStep g).config = g.config := by
  induction L with
  | nil =>
    intro g hwf hsf _ _ _ hsq
    exact ⟨hwf, hsf, by simp, by simpa using hsq, rfl⟩
  | cons a L' ih =>
    intro g hwf hsf hsep hnd hfresh hsq
    obtain ⟨g1, hok, hagents, hcfg, hlen, _, _, _, _, hwf1, hsf1⟩ :=
      AddAgent_spec g a 0 hwf hsf (hsep a (by simp)) (hfresh a (by simp))
    have hstep : joinStep g a = g1 := by rw [joinStep, hok]
    have hag1 : g1.agents.length = g.agents.length + 1 := by
      rw [hagents]
      simp
    have hndcons : (Agent.ID a :: L'.map Agent.ID).Nodup := by simpa using hnd
    have hfresh' : ∀ b ∈ L', b.ID ∉ mapKeys g1.agents := by
      intro b hb hmem
      rw [hagents] at hmem
      have : mapKeys (g.agents ++ [(a.ID, a)]) = mapKeys g.agents ++ [a.ID] := by
        simp [mapKeys]
      rw [this, List.mem_append] at hmem
      rcases hmem with hmem | hmem
      · exact hfresh b (by simp [hb]) hmem
      · rw [List.mem_singleton] at hmem
        exact (List.nodup_cons.mp hndcons).1 (hmem ▸ List.mem_map_of_mem Agent.ID hb)
    have hsq1 : g1.edges.length = g1.agents.length * g1.agents.length := by
      rw [hlen, hsq, hag1]
      ring
    obtain ⟨w1, w2, w3, w4, w5⟩ := ih g1 hwf1 hsf1
      (fun b hb => hsep b (by simp [hb]))
      (List.nodup_cons.mp hndcons).2 hfresh' hsq1
    have harith : g1.agents.length + L'.length = g.agents.length + (a :: L').length := by
      rw [hag1, List.length_cons]
      omega
    refine ⟨?_, ?_, ?_, ?_, ?_⟩
    · simpa only [List.foldl_cons, hstep] using w1
    · simpa only [List.foldl_cons, hstep] using w2
    · rw [List.foldl_cons, hstep, w3, harith]
    · rw [List.foldl_cons, hstep, w4, harith]
    · rw [List.foldl_cons, hstep, w5, hcfg]

/-- **C10** — the snapshot statistics use `n·(n−1)` as the possible-edge count
while `TotalEdges` counts self-loops: for every graph built by `n ≥ 2` joins
of distinct separator-free agents (a full mesh of `n²` edges including
self-loops, no decay or prune), the snapshot reports
`Density = n/(n−1) > 1` and `ReductionPercent < 0`; with no edges or fewer
than 2 agents the divisions are guarded and both are reported as `0`. -/
theorem C10_snapshot_density (cfg : Config) (L : List Agent) (now : Nat)
    (hsep : ∀ a ∈ L, hasSep a.ID = false) (hnd : (L.map Agent.ID).Nodup)
    (hn : 2 ≤ L.length) :
    (((joinAll cfg L).GetSnapshot now).Stats.TotalAgents = L.length ∧
     ((joinAll cfg L).GetSnapshot now).Stats.TotalEdges = L.length * L.length ∧
     ((joinAll cfg L).GetSnapshot now).Stats.Density =
       (L.length : ℚ) / ((L.length : ℚ) - 1) ∧
     1 < ((joinAll cfg L).GetSnapshot now).Stats.Density ∧
     ((joinAll cfg L).GetSnapshot now).Stats.ReductionPercent < 0) ∧
    (∀ (g : Graph) (m : Nat), g.edges.length = 0 ∨ g.agents.length < 2 →
      (g.GetSnapshot m).Stats.Density = 0 ∧
      (g.GetSnapshot m).Stats.ReductionPercent = 0) := by
  constructor
  · obtain ⟨_, _, hA, hE, _⟩ := joinFold_spec L (NewGraph cfg)
      ⟨List.nodup_nil, fun p hp => absurd hp (List.not_mem_nil p),
        fun q hq => absurd hq (List.not_mem_nil q)⟩
      (fun p hp => absurd hp (List.not_mem_nil p)) hsep hnd
      (fun a _ ha => absurd ha (List.not_mem_nil a.ID)) rfl
    have hA' : (joinAll cfg L).agents.length = L.length := by
      rw [joinAll, hA]
      simp [NewGraph]
    have hE' : (joinAll cfg L).edges.length = L.length * L.length := by
      rw [joinAll, hE]
      simp [NewGraph]
    set g := joinAll cfg L with hg
    have hEne : g.edges.length ≠ 0 := by
      rw [hE']
      have : 2 * 2 ≤ L.length * L.length := Nat.mul_le_mul hn hn
      omega
    have hPpos : 0 < g.agents.length * (g.agents.length - 1) := by
      rw [hA']
      have h1 : 0 < L.length := by omega
      have h2 : 0 < L.length - 1 := by omega
      exact Nat.mul_pos h1 h2
    obtain ⟨hTA, hTE, hD, hR⟩ := calculateStats_density_of_edges g hEne
    have hcast : ((g.agents.length * (g.agents.length - 1) : Nat) : ℚ) =
        (L.length : ℚ) * ((L.length : ℚ) - 1) := by
      rw [hA']
      push_cast [Nat.cast_sub (by omega : 1 ≤ L.length)]
      ring
    have hDval : g.calculateStats.Density = (L.length : ℚ) / ((L.length : ℚ) - 1) := by
      rw [hD, if_pos hPpos, hcast, hE']
      push_cast
      rw [mul_div_mul_left]
      exact_mod_cast (by omega : L.length ≠ 0)
    have hgt : 1 < g.calculateStats.Density := by
      rw [hDval]
      have hb : (0 : ℚ) < (L.length : ℚ) - 1 := by
        have : (2 : ℚ) ≤ (L.length : ℚ) := by exact_mod_cast hn
        linarith
      rw [one_lt_div hb]
      linarith
    refine ⟨?_, ?_, hDval, hgt, ?_⟩
    · show g.calculateStats.TotalAgents = L.length
      rw [hTA, hA']
    · show g.calculateStats.TotalEdges = L.length * L.length
      rw [hTE, hE']
    · show g.calculateStats.ReductionPercent < 0
      rw [hR, if_pos hPpos]
      have : 1 - g.calculateStats.Density < 0 := by linarith
      have h100 : (0 : ℚ) < 100 := by norm_num
      exact mul_neg_of_neg_of_pos this h100
  · intro g m hcase
    by_cases he : g.edges.length = 0
    · rw [show (g.GetSnapshot m).Stats = g.calculateStats from rfl,
        calculateStats_of_no_edges g he]
      exact ⟨rfl, rfl⟩
    · have hlt : g.agents.length < 2 := by tauto
      have hzero : g.agents.length * (g.agents.length - 1) = 0 := by
        have : g.agents.length - 1 = 0 ∨ g.agents.length = 0 := by omega
        rcases this with h | h <;> simp [h]
      obtain ⟨_, _, hD, hR⟩ := calculateStats_density_of_edges g he
      have hnp : ¬ 0 < g.agents.length * (g.agents.length - 1) := by
        rw [hzero]
        omega
      constructor
      · show g.calculateStats.Density = 0
        rw [hD, if_neg hnp]
      · show g.calculateStats.ReductionPercent = 0
        rw [hR, if_neg hnp]

/-- Witness for **C10**: two joined agents `"a"`, `"b"` give 4 edges,
`Density = 2 > 1` and `ReductionPercent = -100 < 0`. -/
theorem C10_witness :
    ((joinAll defaultConfig [mkAgent ['a'], mkAgent ['b']]).GetSnapshot 0).Stats.Density =
      ((2 : ℚ) / ((2 : ℚ) - 1)) ∧
    1 < ((joinAll defaultConfig [mkAgent ['a'], mkAgent ['b']]).GetSnapshot 0).Stats.Density ∧
    ((joinAll defaultConfig [mkAgent ['a'], mkAgent ['b']]).GetSnapshot 0).Stats.ReductionPercent < 0 := by
  have h := (C10_snapshot_density defaultConfig [mkAgent ['a'], mkAgent ['b']] 0
    (by decide) (by decide) (by decide)).1
  obtain ⟨_, _, hD, hgt, hR⟩ := h
  exact ⟨by rw [hD]; norm_num, hgt, hR⟩

theorem list_eq_pair_of_length_two {α : Type} (d : α) {l : List α}
    (h : l.length = 2) : l = [l.headD d, (l.drop 1).headD d] := by
  cases l with
  | nil => simp at h
  | cons a l' =>
    cases l' with
    | nil => simp at h
    | cons b l'' =>
      cases l'' with
      | nil => rfl
      | cons c l''' => simp at h

theorem ReinforceEdge_of_found {g : Graph} {edgeID : Str} {e : Edge} (now : Nat)
    (h : mapLookup edgeID g.edges = some e) :
    g.ReinforceEdge edgeID now = Except.ok { g with
      edges := mapInsert edgeID (e.Reinforce g.config.ReinforcementAmount now) g.edges } := by
  unfold Graph.ReinforceEdge
  rw [h]

theorem ReinforceEdge_of_malformed {g : Graph} {edgeID : Str} (now : Nat)
    (hnone : mapLookup edgeID g.edges = none)
    (hlen : (splitOnSep edgeID).length ≠ 2) :
    g.ReinforceEdge edgeID now = Except.error "invalid edge ID format" := by
  unfold Graph.ReinforceEdge
  rw [hnone]
  exact if_pos hlen

theorem ReinforceEdge_of_no_source {g : Graph} {edgeID : Str} {s t : Str} (now : Nat)
    (hnone : mapLookup edgeID g.edges = none)
    (hsplit : splitOnSep edgeID = [s, t])
    (hs : mapLookup s g.agents = none) :
    g.ReinforceEdge edgeID now = Except.error "source agent not found" := by
  unfold Graph.ReinforceEdge
  rw [hnone]
  show (if (splitOnSep edgeID).length ≠ 2 then _ else _) = _
  rw [hsplit]
  rw [if_neg (by simp)]
  show (if (mapLookup s g.agents).isNone then _ else _) = _
  rw [hs]
  rfl

theorem ReinforceEdge_of_no_target {g : Graph} {edgeID : Str} {s t : Str} {a : Agent}
    (now : Nat)
    (hnone : mapLookup edgeID g.edges = none)
    (hsplit : splitOnSep edgeID = [s, t])
    (hs : mapLookup s g.agents = some a)
    (ht : mapLookup t g.agents = none) :
    g.ReinforceEdge edgeID now = Except.error "target agent not found" := by
  unfold Graph.ReinforceEdge
  rw [hnone]
  show (if (splitOnSep edgeID).length ≠ 2 then _ else _) = _
  rw [hsplit]
  rw [if_neg (by simp)]
  show (if (mapLookup s g.agents).isNone then _
    else if (mapLookup t g.agents).isNone then _ else _) = _
  rw [hs, ht]
  rfl

theorem ReinforceEdge_of_create {g : Graph} {edgeID : Str} {s t : Str} {a b : Agent}
    (now : Nat)
    (hnone : mapLookup edgeID g.edges = none)
    (hsplit : splitOnSep edgeID = [s, t])
    (hs : mapLookup s g.agents = some a)
    (ht : mapLookup t g.agents = some b) :
    g.ReinforceEdge edgeID now = Except.ok { g with
      edges := mapInsert edgeID
        (Edge.Reinforce
          { ID := edgeID, SourceID := s, TargetID := t,
            Weight := 1/2, Usage := 0, LastUsed := now, CreatedAt := now }
          g.config.ReinforcementAmount now) g.edges } := by
  unfold Graph.ReinforceEdge
  rw [hnone]
  show (if (splitOnSep edgeID).length ≠ 2 then _ else _) = _
  rw [hsplit]
  rw [if_neg (by simp)]
  show (if (mapLookup s g.agents).isNone then _
    else if (mapLookup t g.agents).isNone then _ else _) = _
  rw [hs, ht]
  rfl

/-- **C2** — `reinforceEdge` semantics. If the edge exists its weight becomes
`min(1, w + α)`, its usage increments and `lastUsed` is updated. If it does
not exist but the id parses as `"source->target"` with both endpoints
present, it is created at weight `0.5` and reinforced the same way (ending at
`min(1, 0.5 + α)` with usage `1`). An error is returned exactly when the edge
is absent and either the id is malformed or an endpoint is unknown; errors
produce no new state (the pure model returns no graph), matching the Go code,
which returns before any mutation on those paths. -/
theorem C2_reinforceEdge (g : Graph) (edgeID : Str) (now : Nat) :
    (∀ e, mapLookup edgeID g.edges = some e →
      ∃ g', g.ReinforceEdge edgeID now = Except.ok g' ∧
        mapLookup edgeID g'.edges = some
          { e with
            Weight := min 1 (e.Weight + g.config.ReinforcementAmount),
            Usage := e.Usage + 1, LastUsed := now } ∧
        (∀ k, k ≠ edgeID → mapLookup k g'.edges = mapLookup k g.edges) ∧
        g'.agents = g.agents ∧ g'.config = g.config) ∧
    (∀ s t, mapLookup edgeID g.edges = none → splitOnSep edgeID = [s, t] →
      s ∈ mapKeys g.agents → t ∈ mapKeys g.agents →
      ∃ g', g.ReinforceEdge edgeID now = Except.ok g' ∧
        mapLookup edgeID g'.edges = some
          { ID := edgeID, SourceID := s, TargetID := t,
            Weight := min 1 (1/2 + g.config.ReinforcementAmount),
            Usage := 1, LastUsed := now, CreatedAt := now } ∧
        (∀ k, k ≠ edgeID → mapLookup k g'.edges = mapLookup k g.edges) ∧
        g'.agents = g.agents ∧ g'.config = g.config) ∧
    ((∃ msg, g.ReinforceEdge edgeID now = Except.error msg) ↔
      mapLookup edgeID g.edges = none ∧
        ((splitOnSep edgeID).length ≠ 2 ∨
         mapLookup ((splitOnSep edgeID).headD []) g.agents = none ∨
         mapLookup (((splitOnSep edgeID).drop 1).headD []) g.agents = none)) := by
  refine ⟨?_, ?_, ?_, ?_⟩
  · intro e he
    refine ⟨_, ReinforceEdge_of_found now he, ?_, ?_, rfl, rfl⟩
    · show mapLookup edgeID (mapInsert edgeID _ g.edges) = _
      rw [mapLookup_insert_self]
      rfl
    · intro k hk
      show mapLookup k (mapInsert edgeID _ g.edges) = _
      rw [mapLookup_insert_ne hk]
  · intro s t hnone hsplit hs ht
    obtain ⟨a, ha⟩ := Option.isSome_iff_exists.mp (mapLookup_isSome.mpr hs)
    obtain ⟨b, hb⟩ := Option.isSome_iff_exists.mp (mapLookup_isSome.mpr ht)
    refine ⟨_, ReinforceEdge_of_create now hnone hsplit ha hb, ?_, ?_, rfl, rfl⟩
    · show mapLookup edgeID (mapInsert edgeID _ g.edges) = _
      rw [mapLookup_insert_self]
      rfl
    · intro k hk
      show mapLookup k (mapInsert edgeID _ g.edges) = _
      rw [mapLookup_insert_ne hk]
  · rintro ⟨msg, hmsg⟩
    cases hl : mapLookup edgeID g.edges with
    | some e =>
      rw [ReinforceEdge_of_found now hl] at hmsg
      exact absurd hmsg (by simp)
    | none =>
      refine ⟨rfl, ?_⟩
      by_cases hlen : (splitOnSep edgeID).length ≠ 2
      · exact Or.inl hlen
      · push_neg at hlen
        have hpair := list_eq_pair_of_length_two [] hlen
        cases hsrc : mapLookup ((splitOnSep edgeID).headD []) g.agents with
        | none => exact Or.inr (Or.inl rfl)
        | some a =>
          cases htgt : mapLookup (((splitOnSep edgeID).drop 1).headD []) g.agents with
          | none => exact Or.inr (Or.inr rfl)
          | some b =>
            rw [ReinforceEdge_of_create now hl hpair hsrc htgt] at hmsg
            exact absurd hmsg (by simp)
  · rintro ⟨hnone, hcase⟩
    by_cases hlen : (splitOnSep edgeID).length ≠ 2
    · exact ⟨_, ReinforceEdge_of_malformed now hnone hlen⟩
    · push_neg at hlen
      have hpair := list_eq_pair_of_length_two [] hlen
      cases hsrc : mapLookup ((splitOnSep edgeID).headD []) g.agents with
      | none => exact ⟨_, ReinforceEdge_of_no_source now hnone hpair hsrc⟩
      | some a =>
        cases htgt : mapLookup (((splitOnSep edgeID).drop 1).headD []) g.agents with
        | none => exact ⟨_, ReinforceEdge_of_no_target now hnone hpair hsrc htgt⟩
        | some b =>
          rcases hcase with h | h | h
          · exact absurd hlen h
          · rw [hsrc] at h
            exact absurd h (by simp)
          · rw [htgt] at h
            exact absurd h (by simp)

/-- Witness for **C2**: reinforcing the existing self-loop `"p->p"` in the
concrete graph `gP` succeeds and raises its weight to
`min(1, 0.5 + 0.1) = 0.6` with usage `1`. -/
theorem C2_witness :
    ∃ g', gP.ReinforceEdge (NewEdgeID ['p'] ['p']) 2 = Except.ok g' ∧
      mapLookup (NewEdgeID ['p'] ['p']) g'.edges = some
        { mkMeshEdge ['p'] ['p'] ((1:ℚ)/2) 0 with
          Weight := min 1 ((mkMeshEdge ['p'] ['p'] ((1:ℚ)/2) 0).Weight +
            gP.config.ReinforcementAmount),
          Usage := (mkMeshEdge ['p'] ['p'] ((1:ℚ)/2) 0).Usage + 1, LastUsed := 2 } ∧
      g'.agents = gP.agents := by
  obtain ⟨g', hok, hedge, _, hag, _⟩ := (C2_reinforceEdge gP (NewEdgeID ['p'] ['p']) 2).1
    (mkMeshEdge ['p'] ['p'] ((1:ℚ)/2) 0) rfl
  exact ⟨g', hok, hedge, hag⟩

/-- **C4** — `pruneWeak` removes exactly the edges (self-loops included) whose
weight is strictly below the prune threshold `θ` and returns their ids;
afterwards no remaining edge has weight `< θ`, and the agent set is
unchanged. -/
theorem C4_pruneWeak (g : Graph) :
    (g.PruneWeakEdges).2.agents = g.agents ∧
    (g.PruneWeakEdges).2.config = g.config ∧
    (∀ q, q ∈ (g.PruneWeakEdges).2.edges ↔
      q ∈ g.edges ∧ ¬ q.2.GetWeight < g.config.PruneThreshold) ∧
    (∀ q ∈ (g.PruneWeakEdges).2.edges, g.config.PruneThreshold ≤ q.2.GetWeight) ∧
    (∀ k, k ∈ (g.PruneWeakEdges).1 ↔
      ∃ e, (k, e) ∈ g.edges ∧ e.GetWeight < g.config.PruneThreshold) := by
  refine ⟨rfl, rfl, ?_, ?_, ?_⟩
  · intro q
    show q ∈ g.edges.filter _ ↔ _
    rw [List.mem_filter]
    simp
  · intro q hq
    have hq2 : q ∈ g.edges.filter
        (fun p => ¬ p.2.GetWeight < g.config.PruneThreshold) := hq
    rw [List.mem_filter] at hq2
    have := hq2.2
    simp at this
    exact this
  · intro k
    show k ∈ (g.edges.filter (fun p => p.2.GetWeight < g.config.PruneThreshold)).map
      Prod.fst ↔ _
    rw [List.mem_map]
    constructor
    · rintro ⟨q, hq, rfl⟩
      rw [List.mem_filter] at hq
      refine ⟨q.2, ?_, by simpa using hq.2⟩
      have : (q.1, q.2) = q := rfl
      rw [this]
      exact hq.1
    · rintro ⟨e, he, hw⟩
      refine ⟨(k, e), ?_, rfl⟩
      rw [List.mem_filter]
      exact ⟨he, by simpa using hw⟩

/-- A strong edge `"a"→"b"` at weight `0.5` (above `θ = 0.1`). -/
def eStrong : Edge := mkMeshEdge ['a'] ['b'] ((1:ℚ)/2) 0

/-- A weak edge `"b"→"a"` at weight `0.01` (below `θ = 0.1`). -/
def eWeak : Edge := mkMeshEdge ['b'] ['a'] ((1:ℚ)/100) 0

/-- A concrete two-agent graph with one strong and one weak edge. -/
def gPr : Graph :=
  { agents := [(['a'], mkAgent ['a']), (['b'], mkAgent ['b'])],
    edges := [(eStrong.ID, eStrong), (eWeak.ID, eWeak)],
    config := defaultConfig }

/-- Witness for **C4**: pruning `gPr` keeps its agents, keeps the strong edge
(whose weight is then `≥ θ`) and returns the weak edge id among the pruned. -/
theorem C4_witness :
    (gPr.PruneWeakEdges).2.agents = gPr.agents ∧
    gPr.config.PruneThreshold ≤ eStrong.GetWeight ∧
    eWeak.ID ∈ (gPr.PruneWeakEdges).1 := by
  refine ⟨(C4_pruneWeak gPr).1, ?_, ?_⟩
  · apply (C4_pruneWeak gPr).2.2.2.1 (eStrong.ID, eStrong)
    rw [(C4_pruneWeak gPr).2.2.1]
    constructor
    · show (eStrong.ID, eStrong) ∈ [(eStrong.ID, eStrong), (eWeak.ID, eWeak)]
      exact List.mem_cons_self _ _
    · show ¬ eStrong.GetWeight < gPr.config.PruneThreshold
      norm_num [eStrong, mkMeshEdge, Edge.GetWeight,
        show gPr.config = defaultConfig from rfl, defaultConfig]
  · rw [(C4_pruneWeak gPr).2.2.2.2]
    refine ⟨eWeak, ?_, ?_⟩
    · show (eWeak.ID, eWeak) ∈ [(eStrong.ID, eStrong), (eWeak.ID, eWeak)]
      simp
    · show eWeak.GetWeight < gPr.config.PruneThreshold
      norm_num [eWeak, mkMeshEdge, Edge.GetWeight,
        show gPr.config = defaultConfig from rfl, defaultConfig]

/-- The graph operations driven by the topology service. -/
inductive GraphOp where
  | addAgent (a : Agent) (now : Nat)
  | reinforceEdge (edgeID : Str) (now : Nat)
  | decayAll
  | pruneWeak
deriving DecidableEq, Repr

/-- Applying one operation; failing operations leave the graph unchanged (the
Go error paths return before any mutation). -/
def applyOp (g : Graph) : GraphOp → Graph
  | GraphOp.addAgent a now =>
    match g.AddAgent a now with
    | Except.ok g' => g'
    | Except.error _ => g
  | GraphOp.reinforceEdge edgeID now =>
    match g.ReinforceEdge edgeID now with
    | Except.ok g' => g'
    | Except.error _ => g
  | GraphOp.decayAll => g.DecayAllEdges
  | GraphOp.pruneWeak => (g.PruneWeakEdges).2

/-- Applying a sequence of operations. -/
def applyOps (g : Graph) (ops : List GraphOp) : Graph :=
  ops.foldl applyOp g

/-- Every edge weight lies in `[0, 1]`. -/
def WeightsInRange (g : Graph) : Prop :=
  ∀ q ∈ g.edges, 0 ≤ q.2.Weight ∧ q.2.Weight ≤ 1

/-- The configuration constraints of the claim: `0 ≤ w0 ≤ 1`, `α ≥ 0`, `β ≥ 0`. -/
def ConfigInRange (cfg : Config) : Prop :=
  0 ≤ cfg.InitialEdgeWeight ∧ cfg.InitialEdgeWeight ≤ 1 ∧
  0 ≤ cfg.ReinforcementAmount ∧ 0 ≤ cfg.DecayRate

theorem addMeshStep_foldl_mem (c : Str) (w : ℚ) (now : Nat) :
    ∀ (L : List (Str × Agent)) (es : List (Str × Edge)) (q : Str × Edge),
    q ∈ L.foldl (addMeshStep c w now) es → q ∈ es ∨ q.2.Weight = w := by
  intro L
  induction L with
  | nil => intro es q hq; exact Or.inl hq
  | cons p L' ih =>
    intro es q hq
    rw [List.foldl_cons] at hq
    rcases ih _ q hq with hq2 | hq2
    · rw [addMeshStep] at hq2
      by_cases hp : p.2.ID = c
      · rw [if_pos hp] at hq2
        exact Or.inl hq2
      · rw [if_neg hp] at hq2
        rcases mapInsert_mem hq2 with hq3 | hq3
        · exact Or.inr (by rw [hq3]; rfl)
        · rcases mapInsert_mem hq3 with hq4 | hq4
          · exact Or.inr (by rw [hq4]; rfl)
          · exact Or.inl hq4
    · exact Or.inr hq2

theorem applyOp_config (g : Graph) (op : GraphOp) : (applyOp g op).config = g.config := by
  cases op with
  | addAgent a now =>
    show (match g.AddAgent a now with
      | Except.ok g' => g' | Except.error _ => g).config = g.config
    by_cases h : a.ID ∈ mapKeys g.agents
    · rw [AddAgent_eq_of_mem g a now h]
    · rw [AddAgent_eq_of_not_mem g a now h]
  | reinforceEdge edgeID now =>
    show (match g.ReinforceEdge edgeID now with
      | Except.ok g' => g' | Except.error _ => g).config = g.config
    cases hl : mapLookup edgeID g.edges with
    | some e => rw [ReinforceEdge_of_found now hl]
    | none =>
      by_cases hlen : (splitOnSep edgeID).length ≠ 2
      · rw [ReinforceEdge_of_malformed now hl hlen]
      · push_neg at hlen
        have hpair := list_eq_pair_of_length_two [] hlen
        cases hs : mapLookup ((splitOnSep edgeID).headD []) g.agents with
        | none => rw [ReinforceEdge_of_no_source now hl hpair hs]
        | some a =>
          cases ht : mapLookup (((splitOnSep edgeID).drop 1).headD []) g.agents with
          | none => rw [ReinforceEdge_of_no_target now hl hpair hs ht]
          | some b => rw [ReinforceEdge_of_create now hl hpair hs ht]
  | decayAll => rfl
  | pruneWeak => rfl

theorem applyOp_weights_in_range (g : Graph) (op : GraphOp)
    (hcfg : ConfigInRange g.config) (hg : WeightsInRange g) :
    WeightsInRange (applyOp g op) := by
  obtain ⟨hw0, hw1, ha, hb⟩ := hcfg
  cases op with
  | addAgent a now =>
    show WeightsInRange (match g.AddAgent a now with
      | Except.ok g' => g' | Except.error _ => g)
    by_cases h : a.ID ∈ mapKeys g.agents
    · rw [AddAgent_eq_of_mem g a now h]
      exact hg
    · rw [AddAgent_eq_of_not_mem g a now h]
      intro q hq
      rcases addMeshStep_foldl_mem a.ID g.config.InitialEdgeWeight now _ _ q hq
        with hq2 | hq2
      · rcases mapInsert_mem hq2 with hq3 | hq3
        · rw [hq3]
          exact ⟨hw0, hw1⟩
        · exact hg q hq3
      · rw [hq2]
        exact ⟨hw0, hw1⟩
  | reinforceEdge edgeID now =>
    show WeightsInRange (match g.ReinforceEdge edgeID now with
      | Except.ok g' => g' | Except.error _ => g)
    cases hl : mapLookup edgeID g.edges with
    | some e =>
      rw [ReinforceEdge_of_found now hl]
      intro q hq
      rcases mapInsert_mem hq with hq2 | hq2
      · rw [hq2]
        have he := hg _ (mapLookup_mem hl)
        refine ⟨le_min (by norm_num) (add_nonneg he.1 ha), min_le_left _ _⟩
      · exact hg q hq2
    | none =>
      by_cases hlen : (splitOnSep edgeID).length ≠ 2
      · rw [ReinforceEdge_of_malformed now hl hlen]
        exact hg
      · push_neg at hlen
        have hpair := list_eq_pair_of_length_two [] hlen
        cases hs : mapLookup ((splitOnSep edgeID).headD []) g.agents with
        | none =>
          rw [ReinforceEdge_of_no_source now hl hpair hs]
          exact hg
        | some a =>
          cases ht : mapLookup (((splitOnSep edgeID).drop 1).headD []) g.agents with
          | none =>
            rw [ReinforceEdge_of_no_target now hl hpair hs ht]
            exact hg
          | some b =>
            rw [ReinforceEdge_of_create now hl hpair hs ht]
            intro q hq
            rcases mapInsert_mem hq with hq2 | hq2
            · rw [hq2]
              refine ⟨le_min (by norm_num) (add_nonneg (by norm_num) ha),
                min_le_left _ _⟩
            · exact hg q hq2
  | decayAll =>
    intro q hq
    obtain ⟨r, hr, hrq⟩ := List.mem_map.mp hq
    have hre := hg r hr
    rw [← hrq]
    constructor
    · exact le_max_left _ _
    · refine max_le (by norm_num) ?_
      have : r.2.Weight - g.config.DecayRate ≤ r.2.Weight := by linarith
      linarith [hre.2]
  | pruneWeak =>
    intro q hq
    have hq2 : q ∈ g.edges.filter
        (fun p => ¬ p.2.GetWeight < g.config.PruneThreshold) := hq
    rw [List.mem_filter] at hq2
    exact hg q hq2.1

theorem mapLookup_decay (rate : ℚ) (k : Str) :
    ∀ (m : List (Str × Edge)),
    mapLookup k (m.map (fun p => (p.1, p.2.Decay rate))) =
      (mapLookup k m).map (fun e => e.Decay rate) := by
  intro m
  induction m with
  | nil => rfl
  | cons p rest ih =>
    by_cases h : p.1 = k
    · simp [mapLookup, h]
    · simp [mapLookup, h, ih]

theorem decay_iterate_spec (k : Nat) :
    ∀ (g : Graph) (key : Str) (e : Edge), mapLookup key g.edges = some e →
    ∃ e', mapLookup key ((Graph.DecayAllEdges)^[k] g).edges = some e' ∧
      e.Weight - e'.Weight ≤ (k : ℚ) * g.config.DecayRate ∧
      (0 ≤ e.Weight → 0 ≤ e'.Weight) ∧
      ((Graph.DecayAllEdges)^[k] g).config = g.config := by
  induction k with
  | zero =>
    intro g key e he
    exact ⟨e, by simpa using he, by simp, fun h => h, by simp⟩
  | succ n ih =>
    intro g key e he
    have hstep : mapLookup key (g.DecayAllEdges).edges =
        some (e.Decay g.config.DecayRate) := by
      show mapLookup key (g.edges.map
        (fun p => (p.1, p.2.Decay g.config.DecayRate))) = _
      rw [mapLookup_decay, he]
      rfl
    obtain ⟨e', he', hdiff, hnn, hcfg⟩ := ih g.DecayAllEdges key
      (e.Decay g.config.DecayRate) hstep
    have hcfg2 : (g.DecayAllEdges).config = g.config := rfl
    rw [Function.iterate_succ_apply]
    refine ⟨e', he', ?_, ?_, by rw [hcfg, hcfg2]⟩
    · have h1 : e.Weight - (e.Decay g.config.DecayRate).Weight ≤ g.config.DecayRate := by
        show e.Weight - max 0 (e.Weight - g.config.DecayRate) ≤ _
        have := le_max_right 0 (e.Weight - g.config.DecayRate)
        linarith
      rw [hcfg2] at hdiff
      push_cast
      linarith
    · intro _
      apply hnn
      exact le_max_left _ _

/-- **C3** — assuming `0 ≤ w0 ≤ 1`, `α ≥ 0` and `β ≥ 0`, every edge weight
stays within `[0, 1]` after any sequence of `addAgent`, `reinforceEdge`,
`decayAll` and `pruneWeak` operations; and for every `k ≥ 0`, `k` consecutive
`decayAll` calls decrease each surviving edge's weight by at most `k·β` and
never take it below `0`. -/
theorem C3_weight_invariant (g : Graph) (ops : List GraphOp) (k : Nat)
    (hcfg : ConfigInRange g.config) (hg : WeightsInRange g) :
    WeightsInRange (applyOps g ops) ∧
    (∀ key e, mapLookup key g.edges = some e →
      ∃ e', mapLookup key ((Graph.DecayAllEdges)^[k] g).edges = some e' ∧
        e.Weight - e'.Weight ≤ (k : ℚ) * g.config.DecayRate ∧ 0 ≤ e'.Weight) := by
  constructor
  · have main : ∀ (l : List GraphOp) (h : Graph), ConfigInRange h.config →
        WeightsInRange h → WeightsInRange (applyOps h l) := by
      intro l
      induction l with
      | nil => intro h _ hh; exact hh
      | cons op l' ih =>
        intro h hc hh
        show WeightsInRange (applyOps (applyOp h op) l')
        apply ih
        · rw [applyOp_config]
          exact hc
        · exact applyOp_weights_in_range h op hc hh
    exact main ops g hcfg hg
  · intro key e he
    obtain ⟨e', he', hdiff, hnn, _⟩ := decay_iterate_spec k g key e he
    refine ⟨e', he', hdiff, hnn ?_⟩
    exact (hg _ (mapLookup_mem he)).1

/-- Witness for **C3**: the concrete graph `gP` has all weights in `[0, 1]`,
and so does the graph after a decay followed by a prune; one decay step
reduces the self-loop's weight by at most `β`. -/
theorem C3_witness :
    WeightsInRange (applyOps gP [GraphOp.decayAll, GraphOp.pruneWeak]) ∧
    (∃ e', mapLookup (NewEdgeID ['p'] ['p'])
        ((Graph.DecayAllEdges)^[1] gP).edges = some e' ∧
      (mkMeshEdge ['p'] ['p'] ((1:ℚ)/2) 0).Weight - e'.Weight ≤
        (1 : ℚ) * gP.config.DecayRate ∧ 0 ≤ e'.Weight) := by
  have hrange : WeightsInRange gP := by
    intro q hq
    have hE : gP.edges = [(NewEdgeID ['p'] ['p'], mkMeshEdge ['p'] ['p'] ((1:ℚ)/2) 0)] :=
      rfl
    rw [hE] at hq
    simp at hq
    rw [hq]
    norm_num [mkMeshEdge]
  have hcfg : ConfigInRange gP.config := by
    refine ⟨?_, ?_, ?_, ?_⟩ <;>
      norm_num [show gP.config = defaultConfig from rfl, defaultConfig]
  obtain ⟨h1, h2⟩ := C3_weight_invariant gP [GraphOp.decayAll, GraphOp.pruneWeak] 1
    hcfg hrange
  exact ⟨h1, h2 (NewEdgeID ['p'] ['p']) (mkMeshEdge ['p'] ['p'] ((1:ℚ)/2) 0) rfl⟩

/-- `types.ProposalType`. -/
inductive ProposalType
  | decision
  | action
  | topology
deriving DecidableEq, Repr

/-- `types.ProposalStatus`. -/
inductive ProposalStatus
  | pending
  | accepted
  | rejected
  | expired
deriving DecidableEq, Repr

/-- `types.WaggleDance`. -/
structure WaggleDance where
  Intensity : ℚ
  Duration : Int
  Angle : ℚ
  Repetitions : Int
deriving DecidableEq, Repr

/-- `types.Vote`. -/
structure Vote where
  VoterID : Str
  Support : Bool
  Intensity : ℚ
  Timestamp : Nat
deriving DecidableEq, Repr

/-- `types.Proposal` (the opaque `Content` payload is never inspected by the
verified operations and is omitted; `Votes` is the Go `map[AgentID]Vote`). -/
structure Proposal where
  ID : Str
  ProposerID : Str
  «Type» : ProposalType
  Waggle : WaggleDance
  Votes : List (Str × Vote)
  Status : ProposalStatus
  CreatedAt : Nat
  ExpiresAt : Nat
deriving DecidableEq, Repr

/-- `Proposal.AddVote`: `p.Votes[vote.VoterID] = vote` (last-writer-wins). -/
def Proposal.AddVote (p : Proposal) (vote : Vote) : Proposal :=
  { p with Votes := mapInsert vote.VoterID vote p.Votes }

/-- `Proposal.GetQuorum`: `|supporting votes| / totalAgents`, `0` when
`totalAgents == 0`. -/
def Proposal.GetQuorum (p : Proposal) (totalAgents : Nat) : ℚ :=
  if totalAgents = 0 then 0
  else ((p.Votes.filter (fun q => q.2.Support)).length : ℚ) / (totalAgents : ℚ)

/-- `consensus.ConsensusEventType`. -/
inductive ConsensusEventType
  | proposalCreated
  | proposalAccepted
  | proposalRejected
  | proposalExpired
  | voteReceived
  | quorumReached
deriving DecidableEq, Repr

/-- `consensus.ConsensusEvent` (the `Proposal` pointer payload is omitted; the
claims concern only the event kinds and their order). -/
structure ConsensusEvent where
  «Type» : ConsensusEventType
  ProposalID : Str
  Timestamp : Nat
deriving DecidableEq, Repr

/-- `consensus.BeeConsensus`: proposals and the registered-agent set, plus the
event channel modelled as the ordered list of emitted events (`emitEvent`
appends; the Go channel's drop-on-overflow is not modelled — the claims are
about emission order). -/
structure BeeConsensus where
  proposals : List (Str × Proposal)
  agents : List (Str × Bool)
  config : Config
  events : List ConsensusEvent
deriving DecidableEq, Repr

/-- `BeeConsensus.GetAgentCount`: `len(bc.agents)`. -/
def BeeConsensus.GetAgentCount (bc : BeeConsensus) : Nat :=
  bc.agents.length

/-- `BeeConsensus.emitEvent`, modelled as an append to the event list. -/
def BeeConsensus.emitEvent (bc : BeeConsensus) (e : ConsensusEvent) : BeeConsensus :=
  { bc with events := bc.events ++ [e] }

/-- `BeeConsensus.finalizeProposal`: sets the status, emits the status event
(`proposal_accepted` / `proposal_rejected` / `proposal_expired`), and — for an
accepted proposal — then emits `quorum_reached`. -/
def BeeConsensus.finalizeProposal (bc : BeeConsensus) (proposalID : Str)
    (p : Proposal) (status : ProposalStatus) (now : Nat) : BeeConsensus :=
  let bc1 := { bc with
    proposals := mapInsert proposalID { p with Status := status } bc.proposals }
  let eventType :=
    if status = ProposalStatus.rejected then ConsensusEventType.proposalRejected
    else if status = ProposalStatus.expired then ConsensusEventType.proposalExpired
    else ConsensusEventType.proposalAccepted
  let bc2 := bc1.emitEvent { «Type» := eventType, ProposalID := proposalID, Timestamp := now }
  if status = ProposalStatus.accepted then
    bc2.emitEvent
      { «Type» := ConsensusEventType.quorumReached,
        ProposalID := proposalID, Timestamp := now }
  else bc2

/-- `BeeConsensus.Vote`: rejects an unknown or non-pending proposal; otherwise
records the vote (overwriting the voter's previous vote), emits
`vote_received`, recomputes quorum and finalizes as accepted when
`quorum >= quorumThreshold`. -/
def BeeConsensus.Vote (bc : BeeConsensus) (proposalID voterID : Str)
    (support : Bool) (intensity : ℚ) (now : Nat) : Except String BeeConsensus :=
  match mapLookup proposalID bc.proposals with
  | none => Except.error "proposal not found"
  | some proposal =>
    if proposal.Status ≠ ProposalStatus.pending then
      Except.error "proposal is not pending"
    else
      let proposal1 := proposal.AddVote
        { VoterID := voterID, Support := support, Intensity := intensity, Timestamp := now }
      let bc1 := { bc with proposals := mapInsert proposalID proposal1 bc.proposals }
      let bc2 := bc1.emitEvent
        { «Type» := ConsensusEventType.voteReceived, ProposalID := proposalID, Timestamp := now }
      let quorum := proposal1.GetQuorum bc.GetAgentCount
      if bc.config.QuorumThreshold ≤ quorum then
        Except.ok (bc2.finalizeProposal proposalID proposal1 ProposalStatus.accepted now)
      else
        Except.ok bc2

theorem Vote_of_not_pending {bc : BeeConsensus} {proposalID : Str} {q : Proposal}
    (voterID : Str) (support : Bool) (intensity : ℚ) (now : Nat)
    (hp : mapLookup proposalID bc.proposals = some q)
    (hq : q.Status ≠ ProposalStatus.pending) :
    BeeConsensus.Vote bc proposalID voterID support intensity now =
      Except.error "proposal is not pending" := by
  unfold BeeConsensus.Vote
  rw [hp]
  show (if q.Status ≠ ProposalStatus.pending then _ else _) = _
  rw [if_pos hq]

theorem finalizeProposal_accepted (bc : BeeConsensus) (proposalID : Str)
    (p : Proposal) (now : Nat) :
    bc.finalizeProposal proposalID p ProposalStatus.accepted now =
      { bc with
        proposals := mapInsert proposalID { p with Status := ProposalStatus.accepted }
          bc.proposals,
        events := bc.events ++
          [{ «Type» := ConsensusEventType.proposalAccepted,
             ProposalID := proposalID, Timestamp := now },
           { «Type» := ConsensusEventType.quorumReached,
             ProposalID := proposalID, Timestamp := now }] } := by
  simp [BeeConsensus.finalizeProposal, BeeConsensus.emitEvent]

/-- The quorum ratio as §4.4 of the spec words it: the number of supporting
votes over the number of registered active agents, `0` when none are
registered. (`Proposal.GetQuorum` computes exactly this.) -/
def quorumRatio (votes : List (Str × Vote)) (totalAgents : Nat) : ℚ :=
  if totalAgents = 0 then 0
  else ((votes.filter (fun q => q.2.Support)).length : ℚ) / (totalAgents : ℚ)

theorem GetQuorum_eq_quorumRatio (p : Proposal) (n : Nat) :
    p.GetQuorum n = quorumRatio p.Votes n := rfl

/-- The vote record built by `BeeConsensus.Vote`. -/
def mkVote (voterID : Str) (support : Bool) (intensity : ℚ) (now : Nat) : Vote :=
  { VoterID := voterID, Support := support, Intensity := intensity, Timestamp := now }

/-- A consensus event record. -/
def mkEvent (t : ConsensusEventType) (proposalID : Str) (now : Nat) : ConsensusEvent :=
  { «Type» := t, ProposalID := proposalID, Timestamp := now }

theorem Vote_of_pending {bc : BeeConsensus} {proposalID : Str} {p : Proposal}
    (voterID : Str) (support : Bool) (intensity : ℚ) (now : Nat)
    (hp : mapLookup proposalID bc.proposals = some p)
    (hpend : p.Status = ProposalStatus.pending) :
    BeeConsensus.Vote bc proposalID voterID support intensity now =
      (if bc.config.QuorumThreshold ≤
          (p.AddVote (mkVote voterID support intensity now)).GetQuorum
            bc.GetAgentCount then
        Except.ok
          ((BeeConsensus.mk
            (mapInsert proposalID (p.AddVote (mkVote voterID support intensity now))
              bc.proposals)
            bc.agents bc.config
            (bc.events ++ [mkEvent ConsensusEventType.voteReceived proposalID now])).finalizeProposal
            proposalID (p.AddVote (mkVote voterID support intensity now))
            ProposalStatus.accepted now)
      else
        Except.ok
          (BeeConsensus.mk
            (mapInsert proposalID (p.AddVote (mkVote voterID support intensity now))
              bc.proposals)
            bc.agents bc.config
            (bc.events ++ [mkEvent ConsensusEventType.voteReceived proposalID now]))) := by
  unfold BeeConsensus.Vote
  rw [hp]
  show (if p.Status ≠ ProposalStatus.pending then _ else _) = _
  rw [if_neg (fun h => h hpend)]
  rfl

/-- Full characterization of `BeeConsensus.Vote` on a pending proposal, and
rejection on non-pending proposals. -/
theorem vote_pending_outcome (bc : BeeConsensus) (proposalID voterID : Str)
    (support : Bool) (intensity : ℚ) (now : Nat) (p : Proposal)
    (hp : mapLookup proposalID bc.proposals = some p)
    (hpend : p.Status = ProposalStatus.pending) :
    (∃ bc', BeeConsensus.Vote bc proposalID voterID support intensity now =
        Except.ok bc' ∧
      bc'.agents = bc.agents ∧ bc'.config = bc.config ∧
      mapLookup proposalID bc'.proposals = some
        { p with
          Votes := mapInsert voterID (mkVote voterID support intensity now) p.Votes,
          Status := if bc.config.QuorumThreshold ≤
              quorumRatio (mapInsert voterID (mkVote voterID support intensity now)
                p.Votes) bc.GetAgentCount
            then ProposalStatus.accepted else ProposalStatus.pending } ∧
      ((∃ q, mapLookup proposalID bc'.proposals = some q ∧
          q.Status = ProposalStatus.accepted) ↔
        bc.config.QuorumThreshold ≤
          quorumRatio (mapInsert voterID (mkVote voterID support intensity now)
            p.Votes) bc.GetAgentCount)) ∧
    (∀ (bc2 : BeeConsensus) (q : Proposal),
      mapLookup proposalID bc2.proposals = some q →
      q.Status ≠ ProposalStatus.pending →
      BeeConsensus.Vote bc2 proposalID voterID support intensity now =
        Except.error "proposal is not pending") := by
  constructor
  · rw [Vote_of_pending voterID support intensity now hp hpend]
    by_cases hq : bc.config.QuorumThreshold ≤
        quorumRatio (mapInsert voterID (mkVote voterID support intensity now)
          p.Votes) bc.GetAgentCount
    · have hq' : bc.config.QuorumThreshold ≤
          (p.AddVote (mkVote voterID support intensity now)).GetQuorum
            bc.GetAgentCount := hq
      rw [if_pos hq', finalizeProposal_accepted]
      refine ⟨_, rfl, rfl, rfl, ?_, ?_⟩
      · show mapLookup proposalID (mapInsert proposalID
          { p.AddVote (mkVote voterID support intensity now) with
            Status := ProposalStatus.accepted }
          (mapInsert proposalID (p.AddVote (mkVote voterID support intensity now))
            bc.proposals)) = _
        rw [mapLookup_insert_self, if_pos hq]
        rfl
      · constructor
        · intro _
          exact hq
        · intro _
          refine ⟨{ p.AddVote (mkVote voterID support intensity now) with
            Status := ProposalStatus.accepted }, ?_, rfl⟩
          show mapLookup proposalID (mapInsert proposalID
            { p.AddVote (mkVote voterID support intensity now) with
              Status := ProposalStatus.accepted }
            (mapInsert proposalID (p.AddVote (mkVote voterID support intensity now))
              bc.proposals)) = _
          rw [mapLookup_insert_self]
    · have hq' : ¬ bc.config.QuorumThreshold ≤
          (p.AddVote (mkVote voterID support intensity now)).GetQuorum
            bc.GetAgentCount := hq
      rw [if_neg hq']
      refine ⟨_, rfl, rfl, rfl, ?_, ?_⟩
      · show mapLookup proposalID (mapInsert proposalID
          (p.AddVote (mkVote voterID support intensity now)) bc.proposals) = _
        rw [mapLookup_insert_self, if_neg hq]
        have hrec : ({ p with
            Votes := mapInsert voterID (mkVote voterID support intensity now) p.Votes,
            Status := ProposalStatus.pending } : Proposal) =
            { p with
              Votes := mapInsert voterID (mkVote voterID support intensity now) p.Votes } := by
          rw [← hpend]
        rw [hrec]
        rfl
      · constructor
        · rintro ⟨q, hque, hacc⟩
          have hque2 : mapLookup proposalID (mapInsert proposalID
              (p.AddVote (mkVote voterID support intensity now)) bc.proposals) =
              some q := hque
          rw [mapLookup_insert_self] at hque2
          injection hque2 with hqq
          rw [← hqq] at hacc
          have hps : p.Status = ProposalStatus.accepted := hacc
          rw [hpend] at hps
          exact absurd hps (by decide)
        · intro h
          exact absurd h hq
  · intro bc2 q hq2 hqs
    exact Vote_of_not_pending voterID support intensity now hq2 hqs

/-- **C5** — voting on a pending proposal records the vote and transitions the
proposal to `accepted` exactly when the quorum ratio — supporting votes over
registered active agents, `0` when none are registered (`quorumRatio`) —
computed after recording reaches the configured threshold; voting on any
non-pending proposal (in particular one already accepted, so the transition
happens exactly once) fails with a local error, and in the pure model an
error produces no state change and no events. -/
theorem C5_vote_quorum (bc : BeeConsensus) (proposalID voterID : Str)
    (support : Bool) (intensity : ℚ) (now : Nat) (p : Proposal)
    (hp : mapLookup proposalID bc.proposals = some p)
    (hpend : p.Status = ProposalStatus.pending) :
    (∃ bc', BeeConsensus.Vote bc proposalID voterID support intensity now =
        Except.ok bc' ∧
      bc'.agents = bc.agents ∧ bc'.config = bc.config ∧
      mapLookup proposalID bc'.proposals = some
        { p with
          Votes := mapInsert voterID (mkVote voterID support intensity now) p.Votes,
          Status := if bc.config.QuorumThreshold ≤
              quorumRatio (mapInsert voterID (mkVote voterID support intensity now)
                p.Votes) bc.GetAgentCount
            then ProposalStatus.accepted else ProposalStatus.pending } ∧
      ((∃ q, mapLookup proposalID bc'.proposals = some q ∧
          q.Status = ProposalStatus.accepted) ↔
        bc.config.QuorumThreshold ≤
          quorumRatio (mapInsert voterID (mkVote voterID support intensity now)
            p.Votes) bc.GetAgentCount)) ∧
    (∀ (bc2 : BeeConsensus) (q : Proposal),
      mapLookup proposalID bc2.proposals = some q →
      q.Status ≠ ProposalStatus.pending →
      BeeConsensus.Vote bc2 proposalID voterID support intensity now =
        Except.error "proposal is not pending") :=
  vote_pending_outcome bc proposalID voterID support intensity now p hp hpend

/-- A concrete pending proposal `"P"` with no votes yet. -/
def pendingProposal : Proposal :=
  { ID := ['P'], ProposerID := ['a'], «Type» := ProposalType.decision,
    Waggle := { Intensity := 1/2, Duration := 500, Angle := 180, Repetitions := 5 },
    Votes := [], Status := ProposalStatus.pending, CreatedAt := 0, ExpiresAt := 100 }

/-- A concrete consensus state: one registered agent `"a"`, the pending
proposal `"P"`, the default configuration (threshold 0.6), no events yet. -/
def bc0 : BeeConsensus :=
  { proposals := [(['P'], pendingProposal)], agents := [(['a'], true)],
    config := defaultConfig, events := [] }

/-- Witness for **C5**: agent `"a"` votes in support on the concrete pending
proposal; the vote succeeds and the agents registry is untouched. -/
theorem C5_witness :
    mapLookup ['P'] bc0.proposals = some pendingProposal ∧
    pendingProposal.Status = ProposalStatus.pending ∧
    ∃ bc', BeeConsensus.Vote bc0 ['P'] ['a'] true ((9:ℚ)/10) 5 = Except.ok bc' ∧
      bc'.agents = bc0.agents := by
  refine ⟨rfl, rfl, ?_⟩
  obtain ⟨⟨bc', hok, hag, _⟩, _⟩ := C5_vote_quorum bc0 ['P'] ['a'] true ((9:ℚ)/10) 5
    pendingProposal rfl rfl
  exact ⟨bc', hok, hag⟩

/-- The consensus service's handling of one vote record: a local error (e.g. a
vote on a finalized proposal) leaves the state unchanged. -/
def voteStep (bc : BeeConsensus) (proposalID voterID : Str) (support : Bool)
    (intensity : ℚ) (now : Nat) : BeeConsensus :=
  match bc.Vote proposalID voterID support intensity now with
  | Except.ok bc' => bc'
  | Except.error _ => bc

theorem voteStep_of_not_pending {bc : BeeConsensus} {proposalID : Str} {q : Proposal}
    (voterID : Str) (support : Bool) (intensity : ℚ) (now : Nat)
    (hp : mapLookup proposalID bc.proposals = some q)
    (hq : q.Status ≠ ProposalStatus.pending) :
    voteStep bc proposalID voterID support intensity now = bc := by
  unfold voteStep
  rw [Vote_of_not_pending voterID support intensity now hp hq]

/-- **C6** — voting is idempotent per voter: on a pending proposal, submitting
the same vote (same voter id, support value, intensity and tick) twice leaves
the proposal with the same final status and votes mapping as a single
submission; the mapping is keyed by voter id with last-writer-wins, so the
second submission overwrites rather than adds. -/
theorem C6_vote_idempotent (bc : BeeConsensus) (proposalID voterID : Str)
    (support : Bool) (intensity : ℚ) (now : Nat) (p : Proposal)
    (hp : mapLookup proposalID bc.proposals = some p)
    (hpend : p.Status = ProposalStatus.pending) :
    ∃ bc1, BeeConsensus.Vote bc proposalID voterID support intensity now =
        Except.ok bc1 ∧
      (mapLookup proposalID
          (voteStep bc1 proposalID voterID support intensity now).proposals).map
          (fun q => (q.Status, q.Votes)) =
        (mapLookup proposalID bc1.proposals).map (fun q => (q.Status, q.Votes)) := by
  obtain ⟨⟨bc1, hok, hag, hcfg, hlook, _⟩, _⟩ :=
    vote_pending_outcome bc proposalID voterID support intensity now p hp hpend
  refine ⟨bc1, hok, ?_⟩
  by_cases hq : bc.config.QuorumThreshold ≤
      quorumRatio (mapInsert voterID (mkVote voterID support intensity now) p.Votes)
        bc.GetAgentCount
  · rw [if_pos hq] at hlook
    rw [voteStep_of_not_pending voterID support intensity now hlook
      (fun h => nomatch h)]
  · rw [if_neg hq] at hlook
    obtain ⟨⟨bc2, hok2, _, _, hlook2, _⟩, _⟩ :=
      vote_pending_outcome bc1 proposalID voterID support intensity now _ hlook rfl
    have hvs : voteStep bc1 proposalID voterID support intensity now = bc2 := by
      unfold voteStep
      rw [hok2]
    have hidem : mapInsert voterID (mkVote voterID support intensity now)
        (mapInsert voterID (mkVote voterID support intensity now) p.Votes) =
        mapInsert voterID (mkVote voterID support intensity now) p.Votes :=
      mapInsert_idem
    have hcount : bc1.GetAgentCount = bc.GetAgentCount := by
      show bc1.agents.length = bc.agents.length
      rw [hag]
    have hcond2 : ¬ bc1.config.QuorumThreshold ≤
        quorumRatio (mapInsert voterID (mkVote voterID support intensity now)
          ({ p with
            Votes := mapInsert voterID (mkVote voterID support intensity now) p.Votes,
            Status := ProposalStatus.pending } : Proposal).Votes)
          bc1.GetAgentCount := by
      rw [hcfg, hcount]
      show ¬ bc.config.QuorumThreshold ≤
        quorumRatio (mapInsert voterID (mkVote voterID support intensity now)
          (mapInsert voterID (mkVote voterID support intensity now) p.Votes))
          bc.GetAgentCount
      rw [hidem]
      exact hq
    rw [if_neg hcond2] at hlook2
    rw [hvs, hlook2, hlook]
    show some (_, _) = some (_, _)
    rw [Option.some.injEq, Prod.mk.injEq]
    refine ⟨rfl, ?_⟩
    show mapInsert voterID (mkVote voterID support intensity now)
      (mapInsert voterID (mkVote voterID support intensity now) p.Votes) =
      mapInsert voterID (mkVote voterID support intensity now) p.Votes
    exact hidem

/-- Witness for **C6**: the double-vote idempotence at the concrete state
`bc0`. -/
theorem C6_witness :
    ∃ bc1, BeeConsensus.Vote bc0 ['P'] ['a'] true ((9:ℚ)/10) 5 = Except.ok bc1 ∧
      (mapLookup ['P'] (voteStep bc1 ['P'] ['a'] true ((9:ℚ)/10) 5).proposals).map
        (fun q => (q.Status, q.Votes)) =
      (mapLookup ['P'] bc1.proposals).map (fun q => (q.Status, q.Votes)) :=
  C6_vote_idempotent bc0 ['P'] ['a'] true ((9:ℚ)/10) 5 pendingProposal rfl rfl

/-- **C7** — counterexample to the claim as stated. At the concrete state
`bc0` (one registered agent, threshold 0.6) a supporting vote reaches quorum
and the proposal is accepted, but `finalizeProposal` emits the
`proposal_accepted` event first and `quorum_reached` second — the opposite of
the claimed order. -/
theorem C7_counterexample :
    ∃ bc', BeeConsensus.Vote bc0 ['P'] ['a'] true ((9:ℚ)/10) 5 = Except.ok bc' ∧
      bc'.events.map (fun e => e.«Type») =
        [ConsensusEventType.voteReceived, ConsensusEventType.proposalAccepted,
         ConsensusEventType.quorumReached] ∧
      [ConsensusEventType.voteReceived, ConsensusEventType.proposalAccepted,
       ConsensusEventType.quorumReached] ≠
      [ConsensusEventType.voteReceived, ConsensusEventType.quorumReached,
       ConsensusEventType.proposalAccepted] := by
  have hq : bc0.config.QuorumThreshold ≤
      (pendingProposal.AddVote (mkVote ['a'] true ((9:ℚ)/10) 5)).GetQuorum
        bc0.GetAgentCount := by
    show (3:ℚ)/5 ≤ (pendingProposal.AddVote (mkVote ['a'] true ((9:ℚ)/10) 5)).GetQuorum 1
    norm_num [Proposal.GetQuorum, Proposal.AddVote, mkVote, mapInsert,
      pendingProposal, List.filter]
  rw [Vote_of_pending ['a'] true ((9:ℚ)/10) 5
    (show mapLookup ['P'] bc0.proposals = some pendingProposal from rfl) rfl,
    if_pos hq, finalizeProposal_accepted]
  refine ⟨_, rfl, ?_, by decide⟩
  rfl

/-- **C7** (amended: the order of the two events is the reverse of the claim).
Whenever a vote brings a pending proposal to quorum, the consensus engine
transitions it to `accepted` and emits, after the `vote_received` event, a
`proposal_accepted` event followed by a `quorum_reached` event — in that
order — on its event channel. -/
theorem C7_event_order (bc : BeeConsensus) (proposalID voterID : Str)
    (support : Bool) (intensity : ℚ) (now : Nat) (p : Proposal)
    (hp : mapLookup proposalID bc.proposals = some p)
    (hpend : p.Status = ProposalStatus.pending)
    (hq : bc.config.QuorumThreshold ≤
      quorumRatio (mapInsert voterID (mkVote voterID support intensity now) p.Votes)
        bc.GetAgentCount) :
    ∃ bc', BeeConsensus.Vote bc proposalID voterID support intensity now =
        Except.ok bc' ∧
      bc'.events = bc.events ++
        [mkEvent ConsensusEventType.voteReceived proposalID now,
         mkEvent ConsensusEventType.proposalAccepted proposalID now,
         mkEvent ConsensusEventType.quorumReached proposalID now] ∧
      (∃ q, mapLookup proposalID bc'.proposals = some q ∧
        q.Status = ProposalStatus.accepted) := by
  have hq' : bc.config.QuorumThreshold ≤
      (p.AddVote (mkVote voterID support intensity now)).GetQuorum
        bc.GetAgentCount := hq
  rw [Vote_of_pending voterID support intensity now hp hpend, if_pos hq',
    finalizeProposal_accepted]
  refine ⟨_, rfl, ?_, ?_⟩
  · show (bc.events ++ [mkEvent ConsensusEventType.voteReceived proposalID now]) ++
      [mkEvent ConsensusEventType.proposalAccepted proposalID now,
       mkEvent ConsensusEventType.quorumReached proposalID now] = _
    rw [List.append_assoc]
    rfl
  · refine ⟨{ p.AddVote (mkVote voterID support intensity now) with
      Status := ProposalStatus.accepted }, ?_, rfl⟩
    exact mapLookup_insert_self

/-- Witness for **C7** (amended): the accepted vote at `bc0` emits
`vote_received`, `proposal_accepted`, `quorum_reached` in that order. -/
theorem C7_witness :
    ∃ bc', BeeConsensus.Vote bc0 ['P'] ['a'] true ((9:ℚ)/10) 5 = Except.ok bc' ∧
      bc'.events = bc0.events ++
        [mkEvent ConsensusEventType.voteReceived ['P'] 5,
         mkEvent ConsensusEventType.proposalAccepted ['P'] 5,
         mkEvent ConsensusEventType.quorumReached ['P'] 5] := by
  obtain ⟨bc', hok, hev, _⟩ := C7_event_order bc0 ['P'] ['a'] true ((9:ℚ)/10) 5
    pendingProposal rfl rfl (by
      show (3:ℚ)/5 ≤ quorumRatio
        (mapInsert ['a'] (mkVote ['a'] true ((9:ℚ)/10) 5) pendingProposal.Votes) 1
      norm_num [quorumRatio, mkVote, mapInsert, pendingProposal, List.filter])
  exact ⟨bc', hok, hev⟩

/-- `types.InsightType`. -/
inductive InsightType
  | customerFeedback
  | pricingIssue
  | productIssue
  | processImprovement
  | fraudPattern
  | inventoryTrend
  | behaviorPattern
  | correlation
  | anomaly
deriving DecidableEq, Repr

/-- `types.Insight` (the structured `Data`, `Tags`, `Metadata` and privacy
fields are never inspected by `addInsight`/`QueryInsights` and are omitted). -/
structure Insight where
  ID : Str
  AgentID : Str
  AgentRole : Str
  «Type» : InsightType
  Topic : Str
  Content : Str
  Confidence : ℚ
  CreatedAt : Nat
deriving DecidableEq, Repr

/-- `types.KnowledgeQuery`. -/
structure KnowledgeQuery where
  Question : Str
  Topics : List Str
  AgentTypes : List Str
  InsightTypes : List InsightType
  MinConfidence : ℚ
  TimeFrom : Option Nat
  TimeTo : Option Nat
  Limit : Int
deriving DecidableEq, Repr

/-- `types.KnowledgeQueryResult` (pattern detection is a separate tick and is
not part of `QueryInsights`). -/
structure KnowledgeQueryResult where
  Query : KnowledgeQuery
  Insights : List Insight
  Count : Nat
  Timestamp : Nat
deriving DecidableEq, Repr

/-- `KnowledgeManager`: the primary insight map and the three secondary
indices (`byTopic`, `byAgent`, `byType`), each an insertion-ordered id list. -/
structure KnowledgeManager where
  insights : List (Str × Insight)
  indexByTopic : List (Str × List Str)
  indexByAgent : List (Str × List Str)
  indexByType : List (InsightType × List Str)
deriving DecidableEq, Repr

/-- `KnowledgeManager.addInsight`: stores the insight under its id and appends
the id to the three indices (a missing index key starts from the empty
list, as a Go `nil` slice). -/
def KnowledgeManager.addInsight (km : KnowledgeManager) (insight : Insight) :
    KnowledgeManager :=
  { km with
    insights := mapInsert insight.ID insight km.insights,
    indexByTopic := mapInsert insight.Topic
      ((mapLookup insight.Topic km.indexByTopic).getD [] ++ [insight.ID])
      km.indexByTopic,
    indexByAgent := mapInsert insight.AgentID
      ((mapLookup insight.AgentID km.indexByAgent).getD [] ++ [insight.ID])
      km.indexByAgent,
    indexByType := mapInsert insight.«Type»
      ((mapLookup insight.«Type» km.indexByType).getD [] ++ [insight.ID])
      km.indexByType }

/-- The per-insight filter conditions of `QueryInsights` (confidence
threshold, time range, agent types); in the Go loop these are `continue`
guards. The topic / insight-type dimensions are *not* checked here — they
only drive candidate selection. -/
def passesFilters (query : KnowledgeQuery) (insight : Insight) : Bool :=
  decide (query.MinConfidence ≤ insight.Confidence) &&
  (match query.TimeFrom with
   | none => true
   | some t => decide (¬ insight.CreatedAt < t)) &&
  (match query.TimeTo with
   | none => true
   | some t => decide (¬ t < insight.CreatedAt)) &&
  (query.AgentTypes.isEmpty || query.AgentTypes.any
    (fun agentType => insight.AgentRole = agentType))

/-- The filtering loop of `QueryInsights`: walks the candidate ids, appends
matching insights, and `break`s once a positive `Limit` is reached. -/
def collectMatching (km : KnowledgeManager) (query : KnowledgeQuery) :
    List Str → List Insight → List Insight
  | [], acc => acc
  | id :: rest, acc =>
    match mapLookup id km.insights with
    | none => collectMatching km query rest acc
    | some insight =>
      if passesFilters query insight then
        let acc' := acc ++ [insight]
        if 0 < query.Limit ∧ query.Limit ≤ (acc'.length : Int) then acc'
        else collectMatching km query rest acc'
      else collectMatching km query rest acc

/-- `KnowledgeManager.QueryInsights`: candidate ids come from the topic
indices when `Topics` is non-empty, else from the type indices when
`InsightTypes` is non-empty, else all insights; then the filter loop runs. -/
def KnowledgeManager.QueryInsights (km : KnowledgeManager)
    (query : KnowledgeQuery) (now : Nat) : KnowledgeQueryResult :=
  let candidateIDs :=
    if query.Topics ≠ [] then
      query.Topics.foldl
        (fun acc topic => acc ++ (mapLookup topic km.indexByTopic).getD []) []
    else if query.InsightTypes ≠ [] then
      query.InsightTypes.foldl
        (fun acc t => acc ++ (mapLookup t km.indexByType).getD []) []
    else mapKeys km.insights
  let matching := collectMatching km query candidateIDs []
  { Query := query, Insights := matching, Count := matching.length, Timestamp := now }

/-- The empty knowledge manager (fresh start, nothing loaded from the store). -/
def emptyKM : KnowledgeManager :=
  { insights := [], indexByTopic := [], indexByAgent := [], indexByType := [] }

/-- A concrete insight: id `"i1"`, agent `"a"` with role `"s"`, type
`customer_feedback`, topic `"p"`, confidence `0.9`. -/
def i0 : Insight :=
  { ID := ['i', '1'], AgentID := ['a'], AgentRole := ['s'],
    «Type» := InsightType.customerFeedback, Topic := ['p'], Content := [],
    Confidence := 9/10, CreatedAt := 5 }

/-- **C9** — the claim is right and the code is wrong: reprocessing the same
insight record is *not* idempotent. The primary map is overwritten in place,
but `addInsight` unconditionally appends the id to `byTopic`, `byAgent` and
`byType`, so the second ingestion leaves the duplicate entry `[i1, i1]` in
all three indices where the claim (and the at-least-once delivery contract of
§4.1) requires the index state of a single ingestion (`[i1]`). -/
theorem C9_duplicate_index :
    ((emptyKM.addInsight i0).addInsight i0).insights = (emptyKM.addInsight i0).insights ∧
    mapLookup i0.Topic (emptyKM.addInsight i0).indexByTopic = some [i0.ID] ∧
    mapLookup i0.Topic ((emptyKM.addInsight i0).addInsight i0).indexByTopic =
      some [i0.ID, i0.ID] ∧
    ((emptyKM.addInsight i0).addInsight i0).indexByTopic ≠
      (emptyKM.addInsight i0).indexByTopic ∧
    mapLookup i0.AgentID ((emptyKM.addInsight i0).addInsight i0).indexByAgent =
      some [i0.ID, i0.ID] ∧
    mapLookup i0.«Type» ((emptyKM.addInsight i0).addInsight i0).indexByType =
      some [i0.ID, i0.ID] := by
  refine ⟨?_, ?_, ?_, ?_, ?_, ?_⟩
  · with_unfolding_all rfl
  · with_unfolding_all rfl
  · with_unfolding_all rfl
  · with_unfolding_all decide
  · with_unfolding_all rfl
  · with_unfolding_all rfl

/-- A concrete query: topic filter `["p"]` AND insight-type filter
`[anomaly]`, no other constraints, no limit. -/
def q0 : KnowledgeQuery :=
  { Question := [], Topics := [['p']], AgentTypes := [],
    InsightTypes := [InsightType.anomaly], MinConfidence := 0,
    TimeFrom := none, TimeTo := none, Limit := 0 }

/-- **C8** — counterexample to the claim as stated. `QueryInsights` uses the
insight-type dimension only as a fallback candidate source: when `Topics` is
non-empty the `InsightTypes` filter is ignored entirely, so the
customer-feedback insight `i0` is returned by a query demanding type
`anomaly`. -/
theorem C8_counterexample :
    q0.Topics ≠ [] ∧ q0.InsightTypes ≠ [] ∧ i0.«Type» ∉ q0.InsightTypes ∧
    ((emptyKM.addInsight i0).QueryInsights q0 0).Insights = [i0] ∧
    ((emptyKM.addInsight i0).QueryInsights q0 0).Count = 1 := by
  refine ⟨by decide, by decide, by decide, ?_, ?_⟩
  · with_unfolding_all rfl
  · with_unfolding_all rfl

/-- The index invariants of the knowledge manager (§8 of the spec): every
stored insight is keyed by its own id, and `byTopic` / `byType` map each key
to ids of insights carrying exactly that topic / type, completely. -/
def KnowledgeManager.WF (km : KnowledgeManager) : Prop :=
  (∀ p ∈ km.insights, p.2.ID = p.1) ∧
  (∀ t ids, mapLookup t km.indexByTopic = some ids →
    ∀ id ∈ ids, ∃ i, mapLookup id km.insights = some i ∧ i.Topic = t) ∧
  (∀ p ∈ km.insights, ∃ ids,
    mapLookup p.2.Topic km.indexByTopic = some ids ∧ p.1 ∈ ids) ∧
  (∀ t ids, mapLookup t km.indexByType = some ids →
    ∀ id ∈ ids, ∃ i, mapLookup id km.insights = some i ∧ i.«Type» = t) ∧
  (∀ p ∈ km.insights, ∃ ids,
    mapLookup p.2.«Type» km.indexByType = some ids ∧ p.1 ∈ ids)

theorem mem_foldl_append {β : Type} (f : β → List Str) :
    ∀ (L : List β) (acc : List Str) (x : Str),
    x ∈ L.foldl (fun acc2 b => acc2 ++ f b) acc ↔ x ∈ acc ∨ ∃ b ∈ L, x ∈ f b := by
  intro L
  induction L with
  | nil =>
    intro acc x
    simp
  | cons b L' ih =>
    intro acc x
    rw [List.foldl_cons, ih, List.mem_append]
    simp only [List.mem_cons]
    constructor
    · rintro ((h | h) | ⟨c, hc, h⟩)
      · exact Or.inl h
      · exact Or.inr ⟨b, Or.inl rfl, h⟩
      · exact Or.inr ⟨c, Or.inr hc, h⟩
    · rintro (h | ⟨c, (rfl | hc), h⟩)
      · exact Or.inl (Or.inl h)
      · exact Or.inl (Or.inr h)
      · exact Or.inr ⟨c, hc, h⟩

theorem collectMatching_no_limit (km : KnowledgeManager) (query : KnowledgeQuery)
    (hlim : query.Limit ≤ 0) :
    ∀ (cand : List Str) (acc : List Insight),
    collectMatching km query cand acc =
      acc ++ (cand.filterMap (fun id => mapLookup id km.insights)).filter
        (passesFilters query) := by
  intro cand
  induction cand with
  | nil =>
    intro acc
    simp [collectMatching]
  | cons id rest ih =>
    intro acc
    show (match mapLookup id km.insights with
      | none => collectMatching km query rest acc
      | some insight =>
        if passesFilters query insight then
          let acc' := acc ++ [insight]
          if 0 < query.Limit ∧ query.Limit ≤ (acc'.length : Int) then acc'
          else collectMatching km query rest acc'
        else collectMatching km query rest acc) = _
    cases hl : mapLookup id km.insights with
    | none =>
      rw [ih, List.filterMap_cons, hl]
    | some i =>
      show (if passesFilters query i = true then
          let acc2 := acc ++ [i]
          if 0 < query.Limit ∧ query.Limit ≤ (acc2.length : Int) then acc2
          else collectMatching km query rest acc2
        else collectMatching km query rest acc) = _
      by_cases hpass : passesFilters query i = true
      · rw [if_pos hpass]
        show (if 0 < query.Limit ∧ query.Limit ≤ ((acc ++ [i]).length : Int) then _
          else collectMatching km query rest (acc ++ [i])) = _
        rw [if_neg (fun hc => absurd (lt_of_lt_of_le hc.1 hlim) (lt_irrefl 0)),
          ih, List.filterMap_cons, hl]
        simp only [List.filter_cons, hpass]
        rw [List.append_assoc]
        rfl
      · rw [if_neg hpass, ih, List.filterMap_cons, hl]
        rw [Bool.not_eq_true] at hpass
        simp only [List.filter_cons, hpass]
        rfl

theorem collectMatching_pos_limit (km : KnowledgeManager) (query : KnowledgeQuery)
    (hpos : 0 < query.Limit) :
    ∀ (cand : List Str) (acc : List Insight), ((acc.length : Int) < query.Limit) →
    collectMatching km query cand acc =
      (acc ++ (cand.filterMap (fun id => mapLookup id km.insights)).filter
        (passesFilters query)).take query.Limit.toNat := by
  intro cand
  induction cand with
  | nil =>
    intro acc hacc
    show acc = _
    rw [List.filterMap_nil]
    show acc = (acc ++ []).take query.Limit.toNat
    rw [List.append_nil, List.take_of_length_le (by omega)]
  | cons id rest ih =>
    intro acc hacc
    show (match mapLookup id km.insights with
      | none => collectMatching km query rest acc
      | some insight =>
        if passesFilters query insight = true then
          let acc2 := acc ++ [insight]
          if 0 < query.Limit ∧ query.Limit ≤ (acc2.length : Int) then acc2
          else collectMatching km query rest acc2
        else collectMatching km query rest acc) = _
    cases hl : mapLookup id km.insights with
    | none =>
      rw [ih acc hacc, List.filterMap_cons, hl]
    | some i =>
      show (if passesFilters query i = true then
          let acc2 := acc ++ [i]
          if 0 < query.Limit ∧ query.Limit ≤ (acc2.length : Int) then acc2
          else collectMatching km query rest acc2
        else collectMatching km query rest acc) = _
      by_cases hpass : passesFilters query i = true
      · rw [if_pos hpass]
        show (if 0 < query.Limit ∧ query.Limit ≤ ((acc ++ [i]).length : Int) then acc ++ [i]
          else collectMatching km query rest (acc ++ [i])) = _
        rw [List.filterMap_cons, hl]
        simp only [List.filter_cons, hpass]
        by_cases hstop : query.Limit ≤ ((acc ++ [i]).length : Int)
        · rw [if_pos ⟨hpos, hstop⟩]
          rw [List.length_append, List.length_singleton] at hstop
          have hlen : query.Limit.toNat = acc.length + 1 := by omega
          rw [hlen, List.take_append_eq_append_take,
            List.take_of_length_le (by omega),
            show acc.length + 1 - acc.length = 1 from by omega]
          rw [if_pos trivial]
          rw [show (1 : Nat) = 0 + 1 from rfl, List.take_succ_cons, List.take_zero]
        · rw [if_neg (fun hc => hstop hc.2)]
          rw [List.length_append, List.length_singleton] at hstop
          rw [ih (acc ++ [i]) (by rw [List.length_append, List.length_singleton]; omega)]
          rw [List.append_assoc]
          rfl
      · rw [if_neg hpass, ih acc hacc, List.filterMap_cons, hl]
        rw [Bool.not_eq_true] at hpass
        simp only [List.filter_cons, hpass]
        rfl

/-- **C8** (amended: the topic and insight-type dimensions are alternative
candidate sources, not conjunctive filters). With well-formed indices and no
limit, an insight is returned iff it is stored, satisfies the candidate
dimension the code actually uses — its topic when `Topics` is non-empty,
otherwise its type when `InsightTypes` is non-empty, otherwise no
constraint — and passes the per-insight filters (minimum confidence, time
range, agent types, each multi-valued filter by set-membership OR); `Count`
always equals the number of returned insights (a query matching nothing
yields count 0, never an error), and a positive limit truncates the
unlimited result after filtering. -/
theorem C8_query_filtering (km : KnowledgeManager) (query : KnowledgeQuery)
    (now : Nat) (hwf : km.WF) (hlim : query.Limit ≤ 0) :
    (km.QueryInsights query now).Count = (km.QueryInsights query now).Insights.length ∧
    (∀ i, i ∈ (km.QueryInsights query now).Insights ↔
      (mapLookup i.ID km.insights = some i ∧
       (if query.Topics ≠ [] then i.Topic ∈ query.Topics
        else if query.InsightTypes ≠ [] then i.«Type» ∈ query.InsightTypes else True) ∧
       passesFilters query i = true)) ∧
    (∀ L : Int, 0 < L →
      (km.QueryInsights { query with Limit := L } now).Insights =
        (km.QueryInsights query now).Insights.take L.toNat) := by
  obtain ⟨hids, hTopicSound, hTopicComplete, hTypeSound, hTypeComplete⟩ := hwf
  refine ⟨rfl, ?_, ?_⟩
  · intro i
    by_cases hT : query.Topics = []
    · by_cases hY : query.InsightTypes = []
      · -- no candidate dimension: all insights
        have hcand : (km.QueryInsights query now).Insights =
            collectMatching km query (mapKeys km.insights) [] := by
          show collectMatching km query
            (if query.Topics ≠ [] then _ else if query.InsightTypes ≠ [] then _ else
              mapKeys km.insights) [] = _
          rw [if_neg (not_not_intro hT), if_neg (not_not_intro hY)]
        rw [hcand, collectMatching_no_limit km query hlim, List.nil_append,
          List.mem_filter, List.mem_filterMap,
          if_neg (not_not_intro hT), if_neg (not_not_intro hY)]
        constructor
        · rintro ⟨⟨id2, _, hlook⟩, hp⟩
          have hIDeq : i.ID = id2 := hids _ (mapLookup_mem hlook)
          exact ⟨by rw [hIDeq]; exact hlook, trivial, hp⟩
        · rintro ⟨hlook, _, hp⟩
          exact ⟨⟨i.ID, mapKeys_of_lookup hlook, hlook⟩, hp⟩
      · -- insight-type candidates
        have hcand : (km.QueryInsights query now).Insights =
            collectMatching km query (query.InsightTypes.foldl
              (fun acc t => acc ++ (mapLookup t km.indexByType).getD []) []) [] := by
          show collectMatching km query
            (if query.Topics ≠ [] then _ else if query.InsightTypes ≠ [] then
              query.InsightTypes.foldl
                (fun acc t => acc ++ (mapLookup t km.indexByType).getD []) [] else _) [] = _
          rw [if_neg (not_not_intro hT), if_pos hY]
        rw [hcand, collectMatching_no_limit km query hlim, List.nil_append,
          List.mem_filter, List.mem_filterMap,
          if_neg (not_not_intro hT), if_pos hY]
        constructor
        · rintro ⟨⟨id2, hid2, hlook⟩, hp⟩
          have hIDeq : i.ID = id2 := hids _ (mapLookup_mem hlook)
          refine ⟨by rw [hIDeq]; exact hlook, ?_, hp⟩
          rw [mem_foldl_append] at hid2
          rcases hid2 with h | ⟨t, ht, hid3⟩
          · exact absurd h (List.not_mem_nil id2)
          · cases hlt : mapLookup t km.indexByType with
            | none =>
              rw [hlt] at hid3
              exact absurd hid3 (List.not_mem_nil id2)
            | some ids =>
              rw [hlt] at hid3
              simp only [Option.getD_some] at hid3
              obtain ⟨i2, hlook2, hty⟩ := hTypeSound t ids hlt id2 hid3
              rw [hlook] at hlook2
              injection hlook2 with hi2
              rw [show i.«Type» = t from by rw [hi2]; exact hty]
              exact ht
        · rintro ⟨hlook, hcond, hp⟩
          refine ⟨⟨i.ID, ?_, hlook⟩, hp⟩
          rw [mem_foldl_append]
          right
          obtain ⟨ids, hlt, hmem2⟩ := hTypeComplete (i.ID, i) (mapLookup_mem hlook)
          refine ⟨i.«Type», hcond, ?_⟩
          rw [hlt]
          simpa using hmem2
    · -- topic candidates
      have hcand : (km.QueryInsights query now).Insights =
          collectMatching km query (query.Topics.foldl
            (fun acc topic => acc ++ (mapLookup topic km.indexByTopic).getD []) []) [] := by
        show collectMatching km query
          (if query.Topics ≠ [] then
            query.Topics.foldl
              (fun acc topic => acc ++ (mapLookup topic km.indexByTopic).getD []) []
          else _) [] = _
        rw [if_pos hT]
      rw [hcand, collectMatching_no_limit km query hlim, List.nil_append,
        List.mem_filter, List.mem_filterMap, if_pos hT]
      constructor
      · rintro ⟨⟨id2, hid2, hlook⟩, hp⟩
        have hIDeq : i.ID = id2 := hids _ (mapLookup_mem hlook)
        refine ⟨by rw [hIDeq]; exact hlook, ?_, hp⟩
        rw [mem_foldl_append] at hid2
        rcases hid2 with h | ⟨t, ht, hid3⟩
        · exact absurd h (List.not_mem_nil id2)
        · cases hlt : mapLookup t km.indexByTopic with
          | none =>
            rw [hlt] at hid3
            exact absurd hid3 (List.not_mem_nil id2)
          | some ids =>
            rw [hlt] at hid3
            simp only [Option.getD_some] at hid3
            obtain ⟨i2, hlook2, htop⟩ := hTopicSound t ids hlt id2 hid3
            rw [hlook] at hlook2
            injection hlook2 with hi2
            rw [show i.Topic = t from by rw [hi2]; exact htop]
            exact ht
      · rintro ⟨hlook, hcond, hp⟩
        refine ⟨⟨i.ID, ?_, hlook⟩, hp⟩
        rw [mem_foldl_append]
        right
        obtain ⟨ids, hlt, hmem2⟩ := hTopicComplete (i.ID, i) (mapLookup_mem hlook)
        refine ⟨i.Topic, hcond, ?_⟩
        rw [hlt]
        simpa using hmem2
  · intro L hL
    show collectMatching km { query with Limit := L }
      (if query.Topics ≠ [] then
        query.Topics.foldl
          (fun acc topic => acc ++ (mapLookup topic km.indexByTopic).getD []) []
      else if query.InsightTypes ≠ [] then
        query.InsightTypes.foldl
          (fun acc t => acc ++ (mapLookup t km.indexByType).getD []) []
      else mapKeys km.insights) [] =
      (collectMatching km query
        (if query.Topics ≠ [] then
          query.Topics.foldl
            (fun acc topic => acc ++ (mapLookup topic km.indexByTopic).getD []) []
        else if query.InsightTypes ≠ [] then
          query.InsightTypes.foldl
            (fun acc t => acc ++ (mapLookup t km.indexByType).getD []) []
        else mapKeys km.insights) []).take L.toNat
    rw [collectMatching_pos_limit km { query with Limit := L } hL _ []
        (by simpa using hL),
      collectMatching_no_limit km query hlim]
    rfl

theorem emptyKM_WF : emptyKM.WF := by
  refine ⟨?_, ?_, ?_, ?_, ?_⟩
  · intro p hp
    exact absurd hp (List.not_mem_nil p)
  · intro t ids h
    exact absurd h (by simp [emptyKM, mapLookup])
  · intro p hp
    exact absurd hp (List.not_mem_nil p)
  · intro t ids h
    exact absurd h (by simp [emptyKM, mapLookup])
  · intro p hp
    exact absurd hp (List.not_mem_nil p)

/-- Ingesting an insight with a fresh id preserves the index invariants. -/
theorem addInsight_WF (km : KnowledgeManager) (i : Insight)
    (hfresh : i.ID ∉ mapKeys km.insights) (hwf : km.WF) :
    (km.addInsight i).WF := by
  obtain ⟨hids, hTopicSound, hTopicComplete, hTypeSound, hTypeComplete⟩ := hwf
  have hlookup_new : ∀ (id : Str) (j : Insight),
      mapLookup id km.insights = some j →
      mapLookup id (mapInsert i.ID i km.insights) = some j := by
    intro id j hj
    have hne : id ≠ i.ID := by
      intro h
      exact hfresh (h ▸ mapKeys_of_lookup hj)
    rw [mapLookup_insert_ne hne]
    exact hj
  refine ⟨?_, ?_, ?_, ?_, ?_⟩
  · intro p hp
    rcases mapInsert_mem hp with hp2 | hp2
    · rw [hp2]
    · exact hids p hp2
  · intro t ids h
    by_cases ht : i.Topic = t
    · subst ht
      have h2 : mapLookup i.Topic (mapInsert i.Topic
          ((mapLookup i.Topic km.indexByTopic).getD [] ++ [i.ID])
          km.indexByTopic) = some ids := h
      rw [mapLookup_insert_self] at h2
      injection h2 with h3
      intro id hid
      rw [← h3, List.mem_append] at hid
      rcases hid with hid | hid
      · cases hlt : mapLookup i.Topic km.indexByTopic with
        | none =>
          rw [hlt] at hid
          exact absurd hid (List.not_mem_nil id)
        | some oldIds =>
          rw [hlt] at hid
          simp only [Option.getD_some] at hid
          obtain ⟨j, hj, hjt⟩ := hTopicSound i.Topic oldIds hlt id hid
          exact ⟨j, hlookup_new id j hj, hjt⟩
      · rw [List.mem_singleton] at hid
        subst hid
        exact ⟨i, mapLookup_insert_self, rfl⟩
    · have h2 : mapLookup t (mapInsert i.Topic
          ((mapLookup i.Topic km.indexByTopic).getD [] ++ [i.ID])
          km.indexByTopic) = some ids := h
      rw [mapLookup_insert_ne (Ne.symm ht)] at h2
      intro id hid
      obtain ⟨j, hj, hjt⟩ := hTopicSound t ids h2 id hid
      exact ⟨j, hlookup_new id j hj, hjt⟩
  · intro p hp
    rcases mapInsert_mem hp with hp2 | hp2
    · subst hp2
      refine ⟨(mapLookup i.Topic km.indexByTopic).getD [] ++ [i.ID], ?_, ?_⟩
      · exact mapLookup_insert_self
      · rw [List.mem_append, List.mem_singleton]
        exact Or.inr rfl
    · obtain ⟨ids, hlt, hmem⟩ := hTopicComplete p hp2
      by_cases ht : p.2.Topic = i.Topic
      · rw [ht]
        refine ⟨(mapLookup i.Topic km.indexByTopic).getD [] ++ [i.ID],
          mapLookup_insert_self, ?_⟩
        rw [← ht, hlt]
        rw [List.mem_append]
        exact Or.inl (by simpa using hmem)
      · refine ⟨ids, ?_, hmem⟩
        show mapLookup p.2.Topic (mapInsert i.Topic
          ((mapLookup i.Topic km.indexByTopic).getD [] ++ [i.ID])
          km.indexByTopic) = some ids
        rw [mapLookup_insert_ne ht]
        exact hlt
  · intro t ids h
    by_cases ht : i.«Type» = t
    · subst ht
      have h2 : mapLookup i.«Type» (mapInsert i.«Type»
          ((mapLookup i.«Type» km.indexByType).getD [] ++ [i.ID])
          km.indexByType) = some ids := h
      rw [mapLookup_insert_self] at h2
      injection h2 with h3
      intro id hid
      rw [← h3, List.mem_append] at hid
      rcases hid with hid | hid
      · cases hlt : mapLookup i.«Type» km.indexByType with
        | none =>
          rw [hlt] at hid
          exact absurd hid (List.not_mem_nil id)
        | some oldIds =>
          rw [hlt] at hid
          simp only [Option.getD_some] at hid
          obtain ⟨j, hj, hjt⟩ := hTypeSound i.«Type» oldIds hlt id hid
          exact ⟨j, hlookup_new id j hj, hjt⟩
      · rw [List.mem_singleton] at hid
        subst hid
        exact ⟨i, mapLookup_insert_self, rfl⟩
    · have h2 : mapLookup t (mapInsert i.«Type»
          ((mapLookup i.«Type» km.indexByType).getD [] ++ [i.ID])
          km.indexByType) = some ids := h
      rw [mapLookup_insert_ne (Ne.symm ht)] at h2
      intro id hid
      obtain ⟨j, hj, hjt⟩ := hTypeSound t ids h2 id hid
      exact ⟨j, hlookup_new id j hj, hjt⟩
  · intro p hp
    rcases mapInsert_mem hp with hp2 | hp2
    · subst hp2
      refine ⟨(mapLookup i.«Type» km.indexByType).getD [] ++ [i.ID], ?_, ?_⟩
      · exact mapLookup_insert_self
      · rw [List.mem_append, List.mem_singleton]
        exact Or.inr rfl
    · obtain ⟨ids, hlt, hmem⟩ := hTypeComplete p hp2
      by_cases ht : p.2.«Type» = i.«Type»
      · rw [ht]
        refine ⟨(mapLookup i.«Type» km.indexByType).getD [] ++ [i.ID],
          mapLookup_insert_self, ?_⟩
        rw [← ht, hlt]
        rw [List.mem_append]
        exact Or.inl (by simpa using hmem)
      · refine ⟨ids, ?_, hmem⟩
        show mapLookup p.2.«Type» (mapInsert i.«Type»
          ((mapLookup i.«Type» km.indexByType).getD [] ++ [i.ID])
          km.indexByType) = some ids
        rw [mapLookup_insert_ne ht]
        exact hlt

theorem C8_witness :
    (emptyKM.addInsight i0).WF ∧ q0.Limit ≤ 0 ∧
    ((emptyKM.addInsight i0).QueryInsights q0 0).Count =
      ((emptyKM.addInsight i0).QueryInsights q0 0).Insights.length ∧
    (i0 ∈ ((emptyKM.addInsight i0).QueryInsights q0 0).Insights ↔
      (mapLookup i0.ID (emptyKM.addInsight i0).insights = some i0 ∧
       (if q0.Topics ≠ [] then i0.Topic ∈ q0.Topics
        else if q0.InsightTypes ≠ [] then i0.«Type» ∈ q0.InsightTypes else True) ∧
       passesFilters q0 i0 = true)) ∧
    ((emptyKM.addInsight i0).QueryInsights { q0 with Limit := (2 : Int) } 0).Insights =
      ((emptyKM.addInsight i0).QueryInsights q0 0).Insights.take (2 : Int).toNat := by
  have hwf : (emptyKM.addInsight i0).WF :=
    addInsight_WF emptyKM i0 (by decide) emptyKM_WF
  obtain ⟨h1, h2, h3⟩ :=
    C8_query_filtering (emptyKM.addInsight i0) q0 0 hwf (by decide)
  exact ⟨hwf, by decide, h1, h2 i0, h3 2 (by decide)⟩
